import Mathlib

/-!
Verification development for the `alittlebitofmoney` pay-per-request API
gateway and marketplace.  The Python sources (`server.py`,
`lib/topup_store.py`, `lib/hire_store.py`, `lib/used_hashes.py`) are shallowly
embedded: Python strings become Lean `String`s manipulated through their
underlying `List Char`, Python ints become `Int`/`Nat`, byte strings become
`List Nat`, database tables become lists of row structures, exceptions become
`Except` values, and each transactional operation is a pure function from the
database value to a new database value (errors leave the database unchanged,
mirroring rollback).
-/

namespace ALBM

/-! ## Character and string primitives

Python's `str.strip`, `str.lower`, `str.partition("=")` and friends, modelled
over `List Char` with `String` wrappers.  Whitespace is the ASCII whitespace
set (the tokens the server manipulates are hex strings, UUIDs and decimal
numbers, so the Unicode cases never arise). -/

def isPySpace (c : Char) : Bool :=
  c.toNat = 32 ∨ c.toNat = 9 ∨ c.toNat = 10 ∨ c.toNat = 13 ∨ c.toNat = 11 ∨ c.toNat = 12

def stripLeftList (cs : List Char) : List Char := cs.dropWhile isPySpace

def stripRightList (cs : List Char) : List Char :=
  (cs.reverse.dropWhile isPySpace).reverse

def stripList (cs : List Char) : List Char := stripRightList (stripLeftList cs)

/-- Model of Python `str.strip()`. -/
def pstrip (s : String) : String := ⟨stripList s.data⟩

/-- ASCII lower-casing of one character, as `str.lower` acts on the
characters appearing in hashes and UUIDs. -/
def lowerChar (c : Char) : Char :=
  if 65 ≤ c.toNat ∧ c.toNat ≤ 90 then Char.ofNat (c.toNat + 32) else c

/-- Model of Python `str.lower()`. -/
def plower (s : String) : String := ⟨s.data.map lowerChar⟩

/-- Model of Python `str.partition("=")`: split at the first `'='`; the `Bool`
records whether a separator was found. -/
def partitionEqList : List Char → List Char × Bool × List Char
  | [] => ([], false, [])
  | c :: rest =>
      if c = '=' then ([], true, rest)
      else
        let r := partitionEqList rest
        (c :: r.1, r.2.1, r.2.2)

def isDigitChar (c : Char) : Bool := 48 ≤ c.toNat ∧ c.toNat ≤ 57

/-- Accumulating decimal parser over digit characters (`none` on the first
non-digit). -/
def parseDigitsGo (acc : Nat) : List Char → Option Nat
  | [] => some acc
  | c :: cs =>
      if isDigitChar c then parseDigitsGo (acc * 10 + (c.toNat - 48)) cs
      else none

/-- Parse a non-empty all-digit string. -/
def parseDigits : List Char → Option Nat
  | [] => none
  | cs => parseDigitsGo 0 cs

/-- Model of Python `int(value)` on the strings the server feeds it: optional
surrounding whitespace, optional sign, decimal digits.  (PEP 515 underscore
grouping is not modelled; the parsed values are produced by `str(int)`.) -/
def parsePyInt (s : String) : Option Int :=
  match stripList s.data with
  | '-' :: rest => (parseDigits rest).map (fun n => -(n : Int))
  | '+' :: rest => (parseDigits rest).map (fun n => (n : Int))
  | cs => (parseDigits cs).map (fun n => (n : Int))

/-- Decimal digits of `n`, most significant first (`[]` for `0`); the first
argument is fuel, sufficient whenever it is at least `n`. -/
def natToCharsGo : Nat → Nat → List Char
  | 0, _ => []
  | fuel + 1, n =>
      if n = 0 then []
      else natToCharsGo fuel (n / 10) ++ [Char.ofNat (48 + n % 10)]

/-- Model of Python `str(n)` for `n : Nat`. -/
def natToChars (n : Nat) : List Char :=
  if n = 0 then ['0'] else natToCharsGo n n

/-- Model of Python `str(n)` for `n : int`. -/
def intToStr (n : Int) : String :=
  if n < 0 then ⟨'-' :: natToChars (-n).toNat⟩ else ⟨natToChars n.toNat⟩

def hexDigitVal (c : Char) : Option Nat :=
  if 48 ≤ c.toNat ∧ c.toNat ≤ 57 then some (c.toNat - 48)
  else if 97 ≤ c.toNat ∧ c.toNat ≤ 102 then some (c.toNat - 87)
  else if 65 ≤ c.toNat ∧ c.toNat ≤ 70 then some (c.toNat - 55)
  else none

/-- Model of Python `bytes.fromhex`: pairs of hex digits with ASCII whitespace
permitted between pairs (not inside a pair). -/
def fromhexList : List Char → Option (List Nat)
  | [] => some []
  | c :: rest =>
      if isPySpace c then fromhexList rest
      else
        match hexDigitVal c with
        | none => none
        | some hi =>
            match rest with
            | [] => none
            | c2 :: rest2 =>
                match hexDigitVal c2 with
                | some lo => (fromhexList rest2).map (fun bs => (hi * 16 + lo) :: bs)
                | none => none

def fromhex (s : String) : Option (List Nat) := fromhexList s.data

/-- Lower-case hex digit for a nibble. -/
def hexChar (n : Nat) : Char :=
  if n < 10 then Char.ofNat (48 + n) else Char.ofNat (87 + n)

/-- Model of `bytes.hex()` / `hexdigest()`: lower-case hex of a byte string. -/
def bytesToHex (bs : List Nat) : String :=
  ⟨bs.foldr (fun b acc => hexChar (b / 16 % 16) :: hexChar (b % 16) :: acc) []⟩

/-- UTF-8 encoding of one character (model of `str.encode("utf-8")`). -/
def utf8Char (c : Char) : List Nat :=
  let n := c.toNat
  if n < 128 then [n]
  else if n < 2048 then [192 + n / 64, 128 + n % 64]
  else if n < 65536 then [224 + n / 4096, 128 + n / 64 % 64, 128 + n % 64]
  else [240 + n / 262144, 128 + n / 4096 % 64, 128 + n / 64 % 64, 128 + n % 64]

def utf8Bytes (s : String) : List Nat :=
  s.data.foldr (fun c acc => utf8Char c ++ acc) []

/-! ## SHA-256 and HMAC-SHA256

Model of the external `hashlib.sha256` / `hmac` primitives used by the server
(token hashing, preimage hashing) and by `pymacaroons` (the macaroon HMAC
chain).  Bytes are `Nat`s kept below 256 and 32-bit words are `Nat`s reduced
modulo `2 ^ 32`. -/

def w32 (n : Nat) : Nat := n % 4294967296

def rotr32 (k n : Nat) : Nat := w32 (n >>> k ||| n <<< (32 - k))

def shaK : List Nat :=
  [1116352408, 1899447441, 3049323471, 3921009573, 961987163, 1508970993,
   2453635748, 2870763221, 3624381080, 310598401, 607225278, 1426881987,
   1925078388, 2162078206, 2614888103, 3248222580, 3835390401, 4022224774,
   264347078, 604807628, 770255983, 1249150122, 1555081692, 1996064986,
   2554220882, 2821834349, 2952996808, 3210313671, 3336571891, 3584528711,
   113926993, 338241895, 666307205, 773529912, 1294757372, 1396182291,
   1695183700, 1986661051, 2177026350, 2456956037, 2730485921, 2820302411,
   3259730800, 3345764771, 3516065817, 3600352804, 4094571909, 275423344,
   430227734, 506948616, 659060556, 883997877, 958139571, 1322822218,
   1537002063, 1747873779, 1955562222, 2024104815, 2227730452, 2361852424,
   2428436474, 2756734187, 3204031479, 3329325298]

structure Sha8 where
  a : Nat
  b : Nat
  c : Nat
  d : Nat
  e : Nat
  f : Nat
  g : Nat
  h : Nat

def shaH0 : Sha8 :=
  ⟨1779033703, 3144134277, 1013904242, 2773480762,
   1359893119, 2600822924, 528734635, 1541459225⟩

def ssig0 (x : Nat) : Nat := rotr32 7 x ^^^ rotr32 18 x ^^^ x >>> 3

def ssig1 (x : Nat) : Nat := rotr32 17 x ^^^ rotr32 19 x ^^^ x >>> 10

def bsig0 (x : Nat) : Nat := rotr32 2 x ^^^ rotr32 13 x ^^^ rotr32 22 x

def bsig1 (x : Nat) : Nat := rotr32 6 x ^^^ rotr32 11 x ^^^ rotr32 25 x

/-- Extend the 16-word block schedule by `k` more words. -/
def extendSchedule : Nat → List Nat → List Nat
  | 0, acc => acc
  | k + 1, acc =>
      let i := acc.length
      let wi := w32 (acc.getD (i - 16) 0 + ssig0 (acc.getD (i - 15) 0) +
        acc.getD (i - 7) 0 + ssig1 (acc.getD (i - 2) 0))
      extendSchedule k (acc ++ [wi])

/-- 32-bit complement (the operand is already reduced mod `2 ^ 32`). -/
def not32 (x : Nat) : Nat := 4294967295 - w32 x

def shaRound (st : Sha8) (kw : Nat × Nat) : Sha8 :=
  let t1 := w32 (st.h + bsig1 st.e + (st.e &&& st.f ^^^ not32 st.e &&& st.g) +
    kw.1 + kw.2)
  let t2 := w32 (bsig0 st.a + (st.a &&& st.b ^^^ st.a &&& st.c ^^^ st.b &&& st.c))
  ⟨w32 (t1 + t2), st.a, st.b, st.c, w32 (st.d + t1), st.e, st.f, st.g⟩

/-- Pack big-endian 4-byte groups into 32-bit words. -/
def bytesToWords : List Nat → List Nat
  | b0 :: b1 :: b2 :: b3 :: rest => (((b0 * 256 + b1) * 256 + b2) * 256 + b3) :: bytesToWords rest
  | _ => []

def compressBlock (h : Sha8) (block : List Nat) : Sha8 :=
  let ws := extendSchedule 48 (bytesToWords block)
  let st := (shaK.zip ws).foldl shaRound h
  ⟨w32 (h.a + st.a), w32 (h.b + st.b), w32 (h.c + st.c), w32 (h.d + st.d),
   w32 (h.e + st.e), w32 (h.f + st.f), w32 (h.g + st.g), w32 (h.h + st.h)⟩

/-- SHA-256 padding: `0x80`, zeros to 56 mod 64, 8-byte big-endian bit length. -/
def shaPad (msg : List Nat) : List Nat :=
  let L := msg.length
  let z := (119 - L % 64) % 64
  msg ++ 0x80 :: List.replicate z 0 ++
    (List.range 8).map (fun k => (L * 8) >>> (8 * (7 - k)) % 256)

/-- Split into 64-byte blocks; the fuel argument is sufficient whenever it is
at least the list length (each step consumes at least one element). -/
def chunks64Go : Nat → List Nat → List (List Nat)
  | 0, _ => []
  | fuel + 1, l => if l = [] then [] else l.take 64 :: chunks64Go fuel (l.drop 64)

def chunks64 (l : List Nat) : List (List Nat) := chunks64Go l.length l

def wordToBytes (n : Nat) : List Nat :=
  [n >>> 24 % 256, n >>> 16 % 256, n >>> 8 % 256, n % 256]

/-- SHA-256 of a byte string (model of `hashlib.sha256(...).digest()`). -/
def sha256Bytes (msg : List Nat) : List Nat :=
  let hf := (chunks64 (shaPad msg)).foldl compressBlock shaH0
  wordToBytes hf.a ++ wordToBytes hf.b ++ wordToBytes hf.c ++ wordToBytes hf.d ++
    wordToBytes hf.e ++ wordToBytes hf.f ++ wordToBytes hf.g ++ wordToBytes hf.h

/-- HMAC-SHA256 (model of `hmac.new(key, msg, hashlib.sha256).digest()`). -/
def hmacSha256 (key msg : List Nat) : List Nat :=
  let k0 := if 64 < key.length then sha256Bytes key else key
  let k := k0 ++ List.replicate (64 - k0.length) 0
  sha256Bytes (k.map (fun b => b ^^^ 0x5c) ++
    sha256Bytes (k.map (fun b => b ^^^ 0x36) ++ msg))

attribute [irreducible] sha256Bytes hmacSha256

/-! ## Used-hash set (`lib/used_hashes.py`)

The mutex is not modelled (operations are already atomic state transitions);
`time.time()` timestamps are passed in explicitly as integers. -/

structure UsedHashSet where
  ttlSeconds : Int
  cleanupIntervalSeconds : Int
  usedHashes : List (String × Int)
  lastCleanup : Int

def UsedHashSet.empty (ttl cleanupInterval : Int) : UsedHashSet :=
  ⟨ttl, cleanupInterval, [], 0⟩

def UsedHashSet.member (s : UsedHashSet) (h : String) : Bool :=
  s.usedHashes.any (fun e => e.1 == h)

/-- `_cleanup`: drop entries older than `ttl_seconds`. -/
def UsedHashSet.cleanupAt (s : UsedHashSet) (now : Int) : UsedHashSet :=
  { s with
    usedHashes := s.usedHashes.filter (fun e => now - s.ttlSeconds ≤ e.2)
    lastCleanup := now }

/-- `_maybe_cleanup`: run `_cleanup` when the interval has elapsed. -/
def UsedHashSet.maybeCleanup (s : UsedHashSet) (now : Int) : UsedHashSet :=
  if s.cleanupIntervalSeconds ≤ now - s.lastCleanup then s.cleanupAt now else s

/-- `UsedHashSet.is_used`: returns the answer and the (possibly cleaned)
state. -/
def UsedHashSet.isUsed (s : UsedHashSet) (paymentHash : String) (now : Int) :
    Bool × UsedHashSet :=
  let ph := plower paymentHash
  if ph = "" then (false, s)
  else
    let s1 := s.maybeCleanup now
    (s1.member ph, s1)

/-- `UsedHashSet.mark_used`: put-if-absent; returns whether the hash was
freshly inserted. -/
def UsedHashSet.markUsed (s : UsedHashSet) (paymentHash : String) (now : Int) :
    Bool × UsedHashSet :=
  let ph := plower paymentHash
  if ph = "" then (false, s)
  else
    let s1 := s.maybeCleanup now
    if s1.member ph then (false, s1)
    else (true, { s1 with usedHashes := s1.usedHashes ++ [(ph, now)] })

/-! ## Preimage/hash codec (`server.py` lines 96-113) -/

/-- `_canonical_hash`: strip whitespace, lower-case. -/
def canonicalHash (paymentHash : String) : String := plower (pstrip paymentHash)

inductive PreimageError where
  | missingPreimage
  | mustBeHex
  | mustBe32Bytes
deriving DecidableEq

/-- `_hash_from_preimage`: strip, hex-decode, require 32 bytes, SHA-256. -/
def hashFromPreimage (preimage : String) : Except PreimageError String :=
  let p := pstrip preimage
  if p = "" then .error .missingPreimage
  else
    match fromhex p with
    | none => .error .mustBeHex
    | some raw =>
        if raw.length ≠ 32 then .error .mustBe32Bytes
        else .ok (bytesToHex (sha256Bytes raw))

/-! ## Macaroons (`server.py` lines 414-506)

`pymacaroons` is an external library; its HMAC chain (derived key, then a
fold of HMACs over identifier and caveats) is modelled concretely, and
base64 serialization is modelled as the identity on the structure. -/

structure Macaroon where
  location : String
  identifier : String
  caveats : List String
  signature : List Nat
deriving DecidableEq

/-- The root-key configuration (`L402_ROOT_KEY` env var, modelled as an
arbitrary fixed secret) and the macaroon location string. -/
def L402_ROOT_KEY : String := "l402-root-key-model"

def L402_LOCATION : String := "alittlebitofmoney"

/-- The `pymacaroons` signature chain: derived key from the root key, HMAC
over the identifier, then an HMAC fold over the caveats. -/
def macaroonChainSig (key identifier : String) (caveats : List String) : List Nat :=
  let derivedKey := hmacSha256 (utf8Bytes "macaroons-key-generator") (utf8Bytes key)
  caveats.foldl (fun sig c => hmacSha256 sig (utf8Bytes c))
    (hmacSha256 derivedKey (utf8Bytes identifier))

attribute [irreducible] macaroonChainSig

/-- `_create_l402_macaroon`. -/
def createL402Macaroon (paymentHash : String) (amountSats : Int)
    (accountId : Option String := none) : Macaroon :=
  let caveats := ["payment_hash=" ++ paymentHash, "amount_sats=" ++ intToStr amountSats] ++
    (match accountId with
     | some a => if a ≠ "" then ["account_id=" ++ a] else []
     | none => [])
  { location := L402_LOCATION
    identifier := paymentHash
    caveats := caveats
    signature := macaroonChainSig L402_ROOT_KEY paymentHash caveats }

/-- One step of the caveat scan in `_extract_l402_caveats`; the state is the
(payment hash, amount, account id) triple accumulated so far. -/
def extractCaveatStep (st : Option String × Option Int × Option String)
    (caveat : String) : Except String (Option String × Option Int × Option String) :=
  let parts := partitionEqList caveat.data
  if !parts.2.1 then .ok st
  else
    let key := ⟨stripList parts.1⟩
    let value : String := ⟨stripList parts.2.2⟩
    if key = "payment_hash" then
      match st.1 with
      | some _ => .error "Duplicate payment_hash caveat"
      | none => .ok (some (canonicalHash value), st.2.1, st.2.2)
    else if key = "amount_sats" then
      match st.2.1 with
      | some _ => .error "Duplicate amount_sats caveat"
      | none =>
          match parsePyInt value with
          | none => .error "amount_sats caveat must be an integer"
          | some n => .ok (st.1, some n, st.2.2)
    else if key = "account_id" then .ok (st.1, st.2.1, some value)
    else .ok st

/-- `_extract_l402_caveats`. -/
def extractL402Caveats (m : Macaroon) : Except String (String × Int × Option String) := do
  let st ← m.caveats.foldlM extractCaveatStep (none, none, none)
  match st.1 with
  | none => .error "Missing payment_hash caveat"
  | some ph =>
      if ph = "" then .error "Missing payment_hash caveat"
      else
        match st.2.1 with
        | none => .error "Missing or invalid amount_sats caveat"
        | some amt =>
            if amt < 0 then .error "Missing or invalid amount_sats caveat"
            else .ok (ph, amt, st.2.2)

/-- `_verify_l402_macaroon`: check the HMAC chain under the root key, then
extract the caveats. -/
def verifyL402Macaroon (m : Macaroon) : Except String (String × Int × Option String) :=
  if m.signature == macaroonChainSig L402_ROOT_KEY m.identifier m.caveats then
    extractL402Caveats m
  else .error "Invalid macaroon signature"

/-! ## Database model

The Postgres tables of `topup_store.py` / `hire_store.py` as lists of rows.
Each store method is a pure function; raising inside the transaction is an
`Except.error` and leaves the caller's database value untouched (rollback).
Fresh UUIDs and fresh `secrets` tokens are passed in as parameters. -/

structure AccountRow where
  id : String
  tokenHash : String
  balanceSats : Int
deriving DecidableEq

structure InvoiceRow where
  paymentHash : String
  accountId : Option String
  amountSats : Int
  status : String
deriving DecidableEq

structure UsageRow where
  accountId : String
  endpoint : String
  amountSats : Int
deriving DecidableEq

structure TaskRow where
  id : String
  buyerAccountId : String
  title : String
  description : String
  budgetSats : Int
  status : String
deriving DecidableEq

structure QuoteRow where
  id : String
  taskId : String
  contractorAccountId : String
  priceSats : Int
  description : String
  status : String
deriving DecidableEq

structure DeliveryRow where
  id : String
  taskId : String
  quoteId : String
  contractorAccountId : String
  filename : String
  contentBase64 : String
  notes : String
deriving DecidableEq

structure MessageRow where
  taskId : String
  quoteId : String
  senderAccountId : String
  body : String
deriving DecidableEq

structure DB where
  accounts : List AccountRow
  invoices : List InvoiceRow
  usageLog : List UsageRow
  tasks : List TaskRow
  quotes : List QuoteRow
  deliveries : List DeliveryRow
  messages : List MessageRow
deriving DecidableEq

/-- `SupabaseTopupStore._hash_token`: SHA-256 hex of the stripped token. -/
def hashToken (token : String) : String :=
  bytesToHex (sha256Bytes (utf8Bytes (pstrip token)))

def findAccountByTokenHash (db : DB) (tokenHash : String) : Option AccountRow :=
  db.accounts.find? (fun a => a.tokenHash == tokenHash)

def findAccountById (db : DB) (accountId : String) : Option AccountRow :=
  db.accounts.find? (fun a => a.id == accountId)

def findInvoice (db : DB) (paymentHash : String) : Option InvoiceRow :=
  db.invoices.find? (fun i => i.paymentHash == paymentHash)

def findTask (db : DB) (taskId : String) : Option TaskRow :=
  db.tasks.find? (fun t => t.id == taskId)

/-- `UPDATE accounts SET balance_sats = f(balance_sats) WHERE id = accountId`. -/
def updateBalance (accounts : List AccountRow) (accountId : String)
    (f : Int → Int) : List AccountRow :=
  accounts.map (fun a =>
    if a.id == accountId then { a with balanceSats := f a.balanceSats } else a)

/-- Observed balance of an account. -/
def balanceOf (db : DB) (accountId : String) : Option Int :=
  (findAccountById db accountId).map (fun a => a.balanceSats)

/-- Observed status of a top-up invoice. -/
def invoiceStatusOf (db : DB) (paymentHash : String) : Option String :=
  (findInvoice db paymentHash).map (fun i => i.status)

/-! ### Topup store (`lib/topup_store.py`) -/

inductive TopupError where
  | invalidToken
  | invalidPayment
  | invoiceAlreadyClaimed
  | missingToken
  | insufficientBalance (balanceSats requiredSats : Int)
  | internalError
deriving DecidableEq

structure TopupClaimResult where
  token : String
  balanceSats : Int
deriving DecidableEq

/-- `create_account`: insert a zero-balance account for a freshly generated
token (the fresh UUID and token are parameters). -/
def createAccount (db : DB) (freshAccountId freshToken : String) :
    (String × String) × DB :=
  let tokenVal := "abl_" ++ freshToken
  ((freshAccountId, tokenVal),
   { db with accounts := db.accounts ++ [⟨freshAccountId, hashToken tokenVal, 0⟩] })

/-- `get_account_id_by_token`. -/
def getAccountIdByToken (db : DB) (token : String) : Except TopupError String :=
  match findAccountByTokenHash db (hashToken token) with
  | none => .error .invalidToken
  | some row => .ok row.id

/-- `create_topup_invoice`: INSERT with
`ON CONFLICT (payment_hash) DO UPDATE` that rebinds the account, resets the
amount and resets the status to `'pending'`. -/
def createTopupInvoice (db : DB) (paymentHash : String) (amountSats : Int)
    (accountId : Option String) : DB :=
  if db.invoices.any (fun i => i.paymentHash == paymentHash) then
    { db with
      invoices := db.invoices.map (fun i =>
        if i.paymentHash == paymentHash then
          { i with accountId := accountId, amountSats := amountSats, status := "pending" }
        else i) }
  else
    { db with invoices := db.invoices ++ [⟨paymentHash, accountId, amountSats, "pending"⟩] }

/-- `debit_token_balance`: lock the row by token hash, reject on insufficient
balance, debit, usage-log, return the new balance. -/
def debitTokenBalance (db : DB) (token : String) (amountSats : Int)
    (endpoint : String) : Except TopupError (Int × DB) :=
  match findAccountByTokenHash db (hashToken token) with
  | none => .error .invalidToken
  | some row =>
      if row.balanceSats < amountSats then
        .error (.insufficientBalance row.balanceSats amountSats)
      else
        let accounts := updateBalance db.accounts row.id (fun b => b - amountSats)
        match accounts.find? (fun a => a.id == row.id) with
        | none => .error .internalError
        | some updated =>
            .ok (updated.balanceSats,
              { db with
                accounts := accounts
                usageLog := db.usageLog ++ [⟨row.id, endpoint, amountSats⟩] })

/-- Shared tail of `claim_topup_invoice`: credit the selected account, mark
the invoice paid and bind it to that account. -/
def claimCredit (db : DB) (inv : InvoiceRow) (selectedAccountId issuedToken : String) :
    Except TopupError (TopupClaimResult × DB) :=
  let accounts := updateBalance db.accounts selectedAccountId (fun b => b + inv.amountSats)
  match accounts.find? (fun a => a.id == selectedAccountId) with
  | none => .error .internalError
  | some balanceRow =>
      .ok (⟨issuedToken, balanceRow.balanceSats⟩,
        { db with
          accounts := accounts
          invoices := db.invoices.map (fun i =>
            if i.paymentHash == inv.paymentHash then
              { i with status := "paid", accountId := some selectedAccountId }
            else i) })

/-- `claim_topup_invoice`: resolve the invoice by payment hash, require it
pending, resolve the target account from the optional bearer token and the
invoice binding, credit and mark paid.  `freshAccountId`/`freshToken` stand
for the `uuid4`/`secrets` values drawn in the account-creation branch. -/
def claimTopupInvoice (db : DB) (paymentHash : String) (token : Option String)
    (freshAccountId freshToken : String) : Except TopupError (TopupClaimResult × DB) :=
  match findInvoice db paymentHash with
  | none => .error .invalidPayment
  | some inv =>
      if inv.status ≠ "pending" then .error .invoiceAlreadyClaimed
      else
        let issuedToken := match token with
          | some t => pstrip t
          | none => ""
        if issuedToken ≠ "" then
          match findAccountByTokenHash db (hashToken issuedToken) with
          | none => .error .invalidToken
          | some accountRow =>
              match inv.accountId with
              | some bound =>
                  if bound ≠ accountRow.id then .error .invalidPayment
                  else claimCredit db inv accountRow.id issuedToken
              | none => claimCredit db inv accountRow.id issuedToken
        else if inv.accountId.isSome then .error .missingToken
        else
          let freshTokenVal := "abl_" ++ freshToken
          let db1 := { db with
            accounts := db.accounts ++ [⟨freshAccountId, hashToken freshTokenVal, 0⟩] }
          claimCredit db1 inv freshAccountId freshTokenVal

/-! ### Hire store (`lib/hire_store.py`) -/

inductive HireError where
  | notFound
  | forbidden
  | invalidState
  | insufficientBalance (balanceSats requiredSats : Int)
  | valueError
  | internalError
deriving DecidableEq

structure AcceptResult where
  taskId : String
  quoteId : String
  status : String
  escrowedSats : Int
deriving DecidableEq

structure ConfirmResult where
  taskId : String
  status : String
  releasedSats : Int
  contractorAccountId : String
deriving DecidableEq

/-- `HireStore.create_task` (the fresh task UUID is a parameter). -/
def createTask (db : DB) (freshTaskId buyerAccountId title description : String)
    (budgetSats : Int) : TaskRow × DB :=
  let row : TaskRow := ⟨freshTaskId, buyerAccountId, title, description, budgetSats, "open"⟩
  (row, { db with tasks := db.tasks ++ [row] })

/-- `HireStore.create_quote`: task must exist, be open, and not belong to the
contractor. -/
def createQuote (db : DB) (freshQuoteId taskId contractorAccountId : String)
    (priceSats : Int) (description : String) : Except HireError (QuoteRow × DB) :=
  match findTask db taskId with
  | none => .error .notFound
  | some task =>
      if task.status ≠ "open" then .error .invalidState
      else if task.buyerAccountId = contractorAccountId then .error .forbidden
      else
        let row : QuoteRow :=
          ⟨freshQuoteId, taskId, contractorAccountId, priceSats, description, "pending"⟩
        .ok (row, { db with quotes := db.quotes ++ [row] })

/-- `HireStore.accept_quote` — the atomic escrow lock.  With
`skipDebit = false` (bearer flow) the buyer balance is checked and debited;
with `skipDebit = true` (L402 flow) the balance is untouched.  In both cases
a usage-log entry is written, the quote is accepted, all other pending quotes
of the task are rejected, and the task moves to `in_escrow`. -/
def acceptQuote (db : DB) (taskId quoteId callerAccountId : String)
    (skipDebit : Bool := false) : Except HireError (AcceptResult × DB) :=
  match findTask db taskId with
  | none => .error .notFound
  | some task =>
      if task.status ≠ "open" then .error .invalidState
      else if task.buyerAccountId ≠ callerAccountId then .error .forbidden
      else
        match db.quotes.find? (fun q => q.id == quoteId && q.taskId == taskId) with
        | none => .error .notFound
        | some quote =>
            if quote.status ≠ "pending" then .error .invalidState
            else
              let price := quote.priceSats
              let debited : Except HireError (List AccountRow) :=
                if !skipDebit then
                  match findAccountById db callerAccountId with
                  | none => .error .notFound
                  | some buyer =>
                      if buyer.balanceSats < price then
                        .error (.insufficientBalance buyer.balanceSats price)
                      else .ok (updateBalance db.accounts callerAccountId (fun b => b - price))
                else .ok db.accounts
              match debited with
              | .error e => .error e
              | .ok accounts =>
                  .ok (⟨taskId, quoteId, "in_escrow", price⟩,
                    { db with
                      accounts := accounts
                      usageLog := db.usageLog ++
                        [⟨callerAccountId, "hire:escrow_lock:" ++ taskId, price⟩]
                      quotes := db.quotes.map (fun q =>
                        if q.id == quoteId then { q with status := "accepted" }
                        else if q.taskId == taskId && q.id != quoteId && q.status == "pending" then
                          { q with status := "rejected" }
                        else q)
                      tasks := db.tasks.map (fun t =>
                        if t.id == taskId then { t with status := "in_escrow" } else t) })

/-- `HireStore.debit_account` (used by the `collect` endpoint). -/
def debitAccount (db : DB) (accountId : String) (amountSats : Int)
    (endpoint : String) : Except HireError DB :=
  match findAccountById db accountId with
  | none => .error .notFound
  | some row =>
      if row.balanceSats < amountSats then
        .error (.insufficientBalance row.balanceSats amountSats)
      else
        .ok { db with
          accounts := updateBalance db.accounts accountId (fun b => b - amountSats)
          usageLog := db.usageLog ++ [⟨accountId, endpoint, amountSats⟩] }

/-- `HireStore.credit_account` (refund path; no balance check, no log). -/
def creditAccount (db : DB) (accountId : String) (amountSats : Int) : DB :=
  { db with accounts := updateBalance db.accounts accountId (fun b => b + amountSats) }

/-- `HireStore.update_quote` (contractor-only edit of a pending quote). -/
def updateQuote (db : DB) (taskId quoteId callerAccountId : String)
    (priceSats : Option Int) (description : Option String) :
    Except HireError DB :=
  match db.quotes.find? (fun q => q.id == quoteId && q.taskId == taskId) with
  | none => .error .notFound
  | some quote =>
      if quote.contractorAccountId ≠ callerAccountId then .error .forbidden
      else if quote.status ≠ "pending" then .error .invalidState
      else
        match priceSats, description with
        | some p, _ =>
            if p ≤ 0 then .error .valueError
            else
              .ok { db with quotes := db.quotes.map (fun q =>
                if q.id == quoteId then
                  { q with priceSats := p, description := description.getD q.description }
                else q) }
        | none, some d =>
            .ok { db with quotes := db.quotes.map (fun q =>
              if q.id == quoteId then { q with description := d } else q) }
        | none, none => .error .valueError

/-- `HireStore.create_delivery`: task must be `in_escrow` with an accepted
quote by the calling contractor; moves the task to `delivered`. -/
def createDelivery (db : DB)
    (freshDeliveryId taskId contractorAccountId filename contentBase64 notes : String) :
    Except HireError (DeliveryRow × DB) :=
  match findTask db taskId with
  | none => .error .notFound
  | some task =>
      if task.status ≠ "in_escrow" then .error .invalidState
      else
        match db.quotes.find? (fun q =>
          q.taskId == taskId && q.contractorAccountId == contractorAccountId &&
            q.status == "accepted") with
        | none => .error .forbidden
        | some quote =>
            let row : DeliveryRow :=
              ⟨freshDeliveryId, taskId, quote.id, contractorAccountId, filename,
                contentBase64, notes⟩
            .ok (row,
              { db with
                deliveries := db.deliveries ++ [row]
                tasks := db.tasks.map (fun t =>
                  if t.id == taskId then { t with status := "delivered" } else t) })

/-- `HireStore.confirm_delivery` — the atomic escrow release: buyer-only on a
`delivered` task; credits the contractor of the accepted quote, writes the
usage-log entry, marks the task `completed`. -/
def confirmDelivery (db : DB) (taskId callerAccountId : String) :
    Except HireError (ConfirmResult × DB) :=
  match findTask db taskId with
  | none => .error .notFound
  | some task =>
      if task.status ≠ "delivered" then .error .invalidState
      else if task.buyerAccountId ≠ callerAccountId then .error .forbidden
      else
        match db.quotes.find? (fun q => q.taskId == taskId && q.status == "accepted") with
        | none => .error .invalidState
        | some quote =>
            let price := quote.priceSats
            .ok (⟨taskId, "completed", price, quote.contractorAccountId⟩,
              { db with
                accounts := updateBalance db.accounts quote.contractorAccountId
                  (fun b => b + price)
                usageLog := db.usageLog ++
                  [⟨quote.contractorAccountId, "hire:escrow_release:" ++ taskId, price⟩]
                tasks := db.tasks.map (fun t =>
                  if t.id == taskId then { t with status := "completed" } else t) })

/-- `HireStore.send_quote_message`. -/
def sendQuoteMessage (db : DB) (taskId quoteId senderAccountId body : String) :
    Except HireError (MessageRow × DB) :=
  match findTask db taskId with
  | none => .error .notFound
  | some task =>
      match db.quotes.find? (fun q => q.id == quoteId && q.taskId == taskId) with
      | none => .error .notFound
      | some quote =>
          if quote.status ≠ "pending" ∧ quote.status ≠ "accepted" then .error .invalidState
          else if senderAccountId ≠ task.buyerAccountId ∧
              senderAccountId ≠ quote.contractorAccountId then .error .forbidden
          else
            let row : MessageRow := ⟨taskId, quoteId, senderAccountId, body⟩
            .ok (row, { db with messages := db.messages ++ [row] })

/-! ## Server layer (`server.py`)

HTTP responses are modelled structurally: an error envelope carries only the
status and error code (as `_build_error` emits), while a 402 challenge
carries the macaroon, invoice and the `WWW-Authenticate` /
`X-Lightning-Invoice` / `X-Payment-Hash` / `X-Price-Sats` header payloads.
The `Authorization: L402 <macaroon>:<preimage>` header is modelled as the
already-split pair; the Phoenix node's invoice reply is a parameter. -/

structure HireAuth where
  accountId : Option String
  method : String
  l402AmountSats : Int
  l402PaymentHash : String
deriving DecidableEq

/-- `_hire_resolve_auth`: X-Token identity plus verified-but-unconsumed L402
payment.  Returns the (possibly cleaned) used-hash set alongside the outcome;
an error is a `(status, code)` pair. -/
def hireResolveAuth (db : DB) (used : UsedHashSet) (now : Int)
    (xToken : Option String) (l402Auth : Option (Macaroon × String)) :
    Except (Nat × String) HireAuth × UsedHashSet :=
  let tokenAccount : Except (Nat × String) (Option String) :=
    match xToken with
    | some t =>
        match getAccountIdByToken db t with
        | .error _ => .error (401, "invalid_token")
        | .ok accId => .ok (some accId)
    | none => .ok none
  match tokenAccount with
  | .error e => (.error e, used)
  | .ok accountId =>
      match l402Auth with
      | some (mac, preimage) =>
          match verifyL402Macaroon mac with
          | .error _ => (.error (401, "invalid_l402"), used)
          | .ok (paymentHash, paidAmount, l402AccountId) =>
              match hashFromPreimage preimage with
              | .error _ => (.error (400, "invalid_payment"), used)
              | .ok derived0 =>
                  let derived := canonicalHash derived0
                  if derived ≠ paymentHash then (.error (401, "invalid_l402"), used)
                  else
                    let r := used.isUsed paymentHash now
                    if r.1 then (.error (400, "payment_already_used"), r.2)
                    else
                      (.ok ⟨(match accountId with
                              | some a => some a
                              | none => l402AccountId), "l402", paidAmount, paymentHash⟩,
                       r.2)
      | none =>
          match accountId with
          | some a => (.ok ⟨some a, "token", 0, ""⟩, used)
          | none => (.ok ⟨none, "none", 0, ""⟩, used)

/-- `_hire_consume_l402`: mark the L402 hash used (no-op for non-L402 auth),
after an optional minimum-amount check. -/
def hireConsumeL402 (auth : HireAuth) (used : UsedHashSet) (now : Int)
    (minSats : Int := 0) : Option (Nat × String) × UsedHashSet :=
  if auth.method ≠ "l402" then (none, used)
  else if 0 < minSats ∧ auth.l402AmountSats < minSats then
    (some (402, "insufficient_payment"), used)
  else
    let r := used.markUsed auth.l402PaymentHash now
    if !r.1 then (some (400, "payment_already_used"), r.2)
    else (none, r.2)

inductive HireResp where
  | ok (r : AcceptResult)
  | err (status : Nat) (code : String)
  | challenge (mac : Macaroon) (invoice : String) (paymentHash : String) (priceSats : Int)
deriving DecidableEq

/-- `_hire_402_challenge`: mint a macaroon (optionally carrying an
`account_id` caveat) over a fresh Phoenix invoice and answer 402 with the
`WWW-Authenticate` challenge headers. -/
def hire402Challenge (priceSats : Int) (accountId : Option String)
    (phoenixPaymentHash phoenixInvoice : String) : HireResp :=
  let invoiceAmount := max priceSats 1
  let paymentHash := canonicalHash phoenixPaymentHash
  .challenge (createL402Macaroon paymentHash invoiceAmount accountId)
    phoenixInvoice paymentHash invoiceAmount

/-- `hire_accept_quote` (`POST …/quotes/{qid}/accept`): resolve auth, require
identity, consume any L402 proof (with no minimum), then run
`HireStore.accept_quote` — with the default `skip_debit = False`.  On
`HireInsufficientBalance` a fresh account-bound 402 challenge is issued. -/
def hireAcceptQuoteHandler (db : DB) (used : UsedHashSet) (now : Int)
    (taskId quoteId : String) (xToken : Option String)
    (l402Auth : Option (Macaroon × String))
    (phoenixPaymentHash phoenixInvoice : String) :
    HireResp × DB × UsedHashSet :=
  match hireResolveAuth db used now xToken l402Auth with
  | (.error e, used1) => (.err e.1 e.2, db, used1)
  | (.ok auth, used1) =>
      match auth.accountId with
      | none => (.err 401 "account_required", db, used1)
      | some callerAccountId =>
          match hireConsumeL402 auth used1 now 0 with
          | (some e, used2) => (.err e.1 e.2, db, used2)
          | (none, used2) =>
              match acceptQuote db taskId quoteId callerAccountId false with
              | .ok (result, db1) => (.ok result, db1, used2)
              | .error .notFound => (.err 404 "not_found", db, used2)
              | .error .invalidState => (.err 409 "invalid_state", db, used2)
              | .error .forbidden => (.err 403 "forbidden", db, used2)
              | .error (.insufficientBalance _ required) =>
                  (hire402Challenge required (some callerAccountId)
                    phoenixPaymentHash phoenixInvoice, db, used2)
              | .error _ => (.err 400 "invalid_request", db, used2)

inductive GateResp where
  | forwarded
  | err (status : Nat) (code : String)
  | challenge (mac : Macaroon) (invoice : String) (paymentHash : String) (priceSats : Int)
deriving DecidableEq

/-- The payment gate of `create_payment_required` (`POST /api/v1/{api}/{path}`)
from the point where the request has been priced: bearer-token debit, or L402
verification and consumption, or an anonymous L402 challenge. -/
def gatedProxyRequest (db : DB) (used : UsedHashSet) (now : Int)
    (token : Option String) (l402Auth : Option (Macaroon × String))
    (amountSats : Int) (endpoint : String)
    (phoenixPaymentHash phoenixInvoice : String) :
    GateResp × DB × UsedHashSet :=
  match token with
  | some t =>
      match debitTokenBalance db t amountSats endpoint with
      | .error .invalidToken => (.err 401 "invalid_token", db, used)
      | .error (.insufficientBalance _ _) => (.err 402 "insufficient_balance", db, used)
      | .error _ => (.err 503 "topup_unavailable", db, used)
      | .ok (_, db1) => (.forwarded, db1, used)
  | none =>
      match l402Auth with
      | some (mac, preimage) =>
          match verifyL402Macaroon mac with
          | .error _ => (.err 401 "invalid_l402", db, used)
          | .ok (paymentHash, paidAmountSats, _) =>
              match hashFromPreimage preimage with
              | .error _ => (.err 400 "invalid_payment", db, used)
              | .ok derived0 =>
                  let derived := canonicalHash derived0
                  if derived ≠ paymentHash then (.err 401 "invalid_l402", db, used)
                  else
                    let r := used.isUsed paymentHash now
                    if r.1 then (.err 400 "payment_already_used", db, r.2)
                    else if paidAmountSats < amountSats then
                      (.err 402 "insufficient_payment", db, r.2)
                    else
                      let m := r.2.markUsed paymentHash now
                      if !m.1 then (.err 400 "payment_already_used", db, m.2)
                      else (.forwarded, db, m.2)
      | none =>
          let paymentHash := canonicalHash phoenixPaymentHash
          (.challenge (createL402Macaroon paymentHash amountSats)
            phoenixInvoice paymentHash amountSats, db, used)

/-- `claim_topup_invoice` (`POST /api/v1/topup/claim`): validate the payload,
hash the preimage, delegate to the store, map errors to the envelope. -/
def claimTopupHandler (db : DB) (preimage : String) (token : Option String)
    (freshAccountId freshToken : String) :
    Except (Nat × String) (TopupClaimResult × DB) :=
  if pstrip preimage = "" then .error (400, "invalid_payment")
  else
    match token with
    | some t =>
        if pstrip t = "" then .error (400, "invalid_token")
        else claimAfterValidate db preimage (some (pstrip t)) freshAccountId freshToken
    | none => claimAfterValidate db preimage none freshAccountId freshToken
where
  claimAfterValidate (db : DB) (preimage : String) (token : Option String)
      (freshAccountId freshToken : String) :
      Except (Nat × String) (TopupClaimResult × DB) :=
    match hashFromPreimage preimage with
    | .error _ => .error (400, "invalid_payment")
    | .ok h =>
        match claimTopupInvoice db (canonicalHash h) token freshAccountId freshToken with
        | .error .invalidPayment => .error (400, "invalid_payment")
        | .error .invoiceAlreadyClaimed => .error (400, "payment_already_used")
        | .error .invalidToken => .error (401, "invalid_token")
        | .error .missingToken => .error (400, "missing_token")
        | .error _ => .error (503, "topup_unavailable")
        | .ok r => .ok r

/-! ## Reachable database states

One constructor per store operation, with the side conditions the HTTP
handlers establish before calling it: `POST /api/v1/topup` rejects
non-positive `amount_sats`; the task/quote handlers reject non-positive
`budget_sats`/`price_sats`; the `collect` handler rejects non-positive
withdrawal amounts (and refunds exactly the debited amount); fresh UUIDs are
fresh. -/

def accountIds (db : DB) : List String := db.accounts.map (fun a => a.id)

inductive Step : DB → DB → Prop
  | createAccount (db : DB) (freshAccountId freshToken : String)
      (hfresh : freshAccountId ∉ accountIds db) :
      Step db ((createAccount db freshAccountId freshToken).2)
  | createTopupInvoice (db : DB) (paymentHash : String) (amountSats : Int)
      (accountId : Option String) (hpos : 0 < amountSats) :
      Step db (createTopupInvoice db paymentHash amountSats accountId)
  | claimTopupInvoice (db : DB) (paymentHash : String) (token : Option String)
      (freshAccountId freshToken : String) (r : TopupClaimResult) (db' : DB)
      (hfresh : freshAccountId ∉ accountIds db)
      (hok : claimTopupInvoice db paymentHash token freshAccountId freshToken = .ok (r, db')) :
      Step db db'
  | debitTokenBalance (db : DB) (token : String) (amountSats : Int) (endpoint : String)
      (r : Int) (db' : DB)
      (hok : debitTokenBalance db token amountSats endpoint = .ok (r, db')) :
      Step db db'
  | debitAccount (db : DB) (accountId : String) (amountSats : Int) (endpoint : String)
      (db' : DB) (hok : debitAccount db accountId amountSats endpoint = .ok db') :
      Step db db'
  | creditAccount (db : DB) (accountId : String) (amountSats : Int)
      (hpos : 0 < amountSats) :
      Step db (creditAccount db accountId amountSats)
  | createTask (db : DB) (freshTaskId buyerAccountId title description : String)
      (budgetSats : Int) (hpos : 0 < budgetSats) :
      Step db ((createTask db freshTaskId buyerAccountId title description budgetSats).2)
  | createQuote (db : DB) (freshQuoteId taskId contractorAccountId : String)
      (priceSats : Int) (description : String) (r : QuoteRow) (db' : DB)
      (hpos : 0 < priceSats)
      (hok : createQuote db freshQuoteId taskId contractorAccountId priceSats description =
        .ok (r, db')) :
      Step db db'
  | updateQuote (db : DB) (taskId quoteId callerAccountId : String)
      (priceSats : Option Int) (description : Option String) (db' : DB)
      (hok : updateQuote db taskId quoteId callerAccountId priceSats description = .ok db') :
      Step db db'
  | acceptQuote (db : DB) (taskId quoteId callerAccountId : String) (skipDebit : Bool)
      (r : AcceptResult) (db' : DB)
      (hok : acceptQuote db taskId quoteId callerAccountId skipDebit = .ok (r, db')) :
      Step db db'
  | createDelivery (db : DB)
      (freshDeliveryId taskId contractorAccountId filename contentBase64 notes : String)
      (r : DeliveryRow) (db' : DB)
      (hok : createDelivery db freshDeliveryId taskId contractorAccountId filename
        contentBase64 notes = .ok (r, db')) :
      Step db db'
  | confirmDelivery (db : DB) (taskId callerAccountId : String)
      (r : ConfirmResult) (db' : DB)
      (hok : confirmDelivery db taskId callerAccountId = .ok (r, db')) :
      Step db db'
  | sendQuoteMessage (db : DB) (taskId quoteId senderAccountId body : String)
      (r : MessageRow) (db' : DB)
      (hok : sendQuoteMessage db taskId quoteId senderAccountId body = .ok (r, db')) :
      Step db db'

/-- The database invariant maintained by every operation: non-negative
balances, positive quote prices, positive invoice amounts, and primary-key
uniqueness of account ids. -/
structure DBInv (db : DB) : Prop where
  balancesNonneg : ∀ a ∈ db.accounts, 0 ≤ a.balanceSats
  quotesPos : ∀ q ∈ db.quotes, 0 < q.priceSats
  invoicesPos : ∀ i ∈ db.invoices, 0 < i.amountSats
  idsNodup : (db.accounts.map (fun a => a.id)).Nodup

/-! ## Character-class helper lemmas -/

/-- The character classes appearing in canonical payment hashes. -/
def isLowerHexChar (c : Char) : Bool :=
  (48 ≤ c.toNat ∧ c.toNat ≤ 57) ∨ (97 ≤ c.toNat ∧ c.toNat ≤ 102)

/-- The character classes appearing in (lower-case) UUID strings. -/
def isUuidChar (c : Char) : Bool := isLowerHexChar c ∨ c.toNat = 45

theorem char_toNat_ofNat {n : Nat} (h : n < 55296) : (Char.ofNat n).toNat = n := by
  have hv : n.isValidChar := Or.inl h
  simp only [Char.ofNat, hv, dif_pos, Char.toNat, Char.ofNatAux]
  rfl

theorem toNat_of_eq_char {c d : Char} (h : c = d) : c.toNat = d.toNat := by rw [h]

theorem isPySpace_false_of_lowerHex {c : Char} (h : isLowerHexChar c = true) :
    isPySpace c = false := by
  simp only [isLowerHexChar, decide_eq_true_eq] at h
  simp only [isPySpace, decide_eq_false_iff_not]
  omega

theorem isPySpace_false_of_uuid {c : Char} (h : isUuidChar c = true) :
    isPySpace c = false := by
  simp only [isUuidChar, isLowerHexChar, Bool.or_eq_true, decide_eq_true_eq] at h
  simp only [isPySpace, decide_eq_false_iff_not]
  omega

theorem isPySpace_false_of_digit {c : Char} (h : isDigitChar c = true) :
    isPySpace c = false := by
  simp only [isDigitChar, decide_eq_true_eq] at h
  simp only [isPySpace, decide_eq_false_iff_not]
  omega

theorem eqchar_toNat : ('=' : Char).toNat = 61 := by decide

theorem minuschar_toNat : ('-' : Char).toNat = 45 := by decide

theorem pluschar_toNat : ('+' : Char).toNat = 43 := by decide

theorem ne_eqchar_of_lowerHex {c : Char} (h : isLowerHexChar c = true) : c ≠ '=' := by
  intro hc
  simp only [isLowerHexChar, decide_eq_true_eq] at h
  have := toNat_of_eq_char hc
  rw [eqchar_toNat] at this
  omega

theorem ne_eqchar_of_uuid {c : Char} (h : isUuidChar c = true) : c ≠ '=' := by
  intro hc
  simp only [isUuidChar, isLowerHexChar, Bool.or_eq_true, decide_eq_true_eq] at h
  have := toNat_of_eq_char hc
  rw [eqchar_toNat] at this
  omega

theorem ne_eqchar_of_digit {c : Char} (h : isDigitChar c = true) : c ≠ '=' := by
  intro hc
  simp only [isDigitChar, decide_eq_true_eq] at h
  have := toNat_of_eq_char hc
  rw [eqchar_toNat] at this
  omega

theorem lowerChar_eq_self_of_lowerHex {c : Char} (h : isLowerHexChar c = true) :
    lowerChar c = c := by
  simp only [isLowerHexChar, decide_eq_true_eq] at h
  simp only [lowerChar, ite_eq_right_iff]
  omega

theorem lowerChar_eq_self_of_uuid {c : Char} (h : isUuidChar c = true) :
    lowerChar c = c := by
  simp only [isUuidChar, isLowerHexChar, Bool.or_eq_true, decide_eq_true_eq] at h
  simp only [lowerChar, ite_eq_right_iff]
  omega

/-! ## Strip / lower / partition lemmas -/

theorem dropWhile_eq_self_of_none {p : Char → Bool} :
    ∀ {l : List Char}, (∀ c ∈ l, p c = false) → l.dropWhile p = l
  | [], _ => rfl
  | c :: cs, h => by
      simp only [List.dropWhile, h c (List.mem_cons_self c cs)]

theorem stripList_eq_self {cs : List Char} (h : ∀ c ∈ cs, isPySpace c = false) :
    stripList cs = cs := by
  unfold stripList stripLeftList stripRightList
  rw [dropWhile_eq_self_of_none h]
  rw [dropWhile_eq_self_of_none (fun c hc => h c (List.mem_reverse.mp hc))]
  exact List.reverse_reverse cs

theorem pstrip_eq_self {s : String} (h : ∀ c ∈ s.data, isPySpace c = false) :
    pstrip s = s := by
  show (⟨stripList s.data⟩ : String) = s
  rw [stripList_eq_self h]

theorem plower_eq_self {s : String} (h : ∀ c ∈ s.data, lowerChar c = c) :
    plower s = s := by
  show (⟨s.data.map lowerChar⟩ : String) = s
  rw [List.map_congr_left h]
  show (⟨s.data.map id⟩ : String) = s
  rw [List.map_id]

theorem canonicalHash_eq_self_of_lowerHex {s : String}
    (h : ∀ c ∈ s.data, isLowerHexChar c = true) : canonicalHash s = s := by
  unfold canonicalHash
  rw [pstrip_eq_self (fun c hc => isPySpace_false_of_lowerHex (h c hc))]
  exact plower_eq_self (fun c hc => lowerChar_eq_self_of_lowerHex (h c hc))

theorem partitionEq_append {ks : List Char} (v : List Char)
    (h : ∀ c ∈ ks, c ≠ '=') : partitionEqList (ks ++ '=' :: v) = (ks, true, v) := by
  induction ks with
  | nil => simp [partitionEqList]
  | cons c cs ih =>
      have hne := h c (List.mem_cons_self c cs)
      have ih' := ih (fun d hd => h d (List.mem_cons_of_mem c hd))
      show partitionEqList (c :: (cs ++ '=' :: v)) = _
      unfold partitionEqList
      rw [if_neg hne, ih']

/-! ## Decimal printing / parsing round trip -/

theorem isDigitChar_digit {m : Nat} (h : m < 10) :
    isDigitChar (Char.ofNat (48 + m)) = true := by
  simp only [isDigitChar, decide_eq_true_eq]
  rw [char_toNat_ofNat (by omega)]
  omega

theorem natToCharsGo_digits :
    ∀ (fuel n : Nat), ∀ c ∈ natToCharsGo fuel n, isDigitChar c = true := by
  intro fuel
  induction fuel with
  | zero => intro n c hc; simp [natToCharsGo] at hc
  | succ k ih =>
      intro n c hc
      by_cases hn : n = 0
      · simp [natToCharsGo, hn] at hc
      · simp only [natToCharsGo, if_neg hn, List.mem_append, List.mem_singleton] at hc
        rcases hc with hc | hc
        · exact ih _ c hc
        · subst hc; exact isDigitChar_digit (Nat.mod_lt n (by omega))

theorem natToChars_digits {n : Nat} : ∀ c ∈ natToChars n, isDigitChar c = true := by
  intro c hc
  unfold natToChars at hc
  split at hc
  · simp only [List.mem_singleton] at hc
    subst hc; decide
  · exact natToCharsGo_digits n n c hc

theorem parseDigitsGo_natToCharsGo :
    ∀ (fuel n : Nat), n ≤ fuel → ∀ (acc : Nat) (rest : List Char),
      parseDigitsGo acc (natToCharsGo fuel n ++ rest) =
        parseDigitsGo (acc * 10 ^ (natToCharsGo fuel n).length + n) rest := by
  intro fuel
  induction fuel with
  | zero =>
      intro n hn acc rest
      interval_cases n
      simp [natToCharsGo]
  | succ k ih =>
      intro n hn acc rest
      by_cases hn0 : n = 0
      · simp [natToCharsGo, hn0]
      · have hdiv : n / 10 ≤ k := by
          have := Nat.div_lt_self (Nat.pos_of_ne_zero hn0) (show (1:Nat) < 10 by omega)
          omega
        simp only [natToCharsGo, if_neg hn0, List.append_assoc, List.singleton_append]
        rw [ih (n / 10) hdiv]
        simp only [parseDigitsGo, isDigitChar_digit (Nat.mod_lt n (by omega)), if_pos]
        rw [char_toNat_ofNat (by have := Nat.mod_lt n (show 0 < 10 by omega); omega)]
        congr 1
        have hmod := Nat.div_add_mod n 10
        have hlen : (natToCharsGo k (n / 10) ++ [Char.ofNat (48 + n % 10)]).length =
            (natToCharsGo k (n / 10)).length + 1 := by simp
        rw [hlen, pow_succ]
        ring_nf
        omega

theorem parseDigits_natToChars (n : Nat) : parseDigits (natToChars n) = some n := by
  by_cases hn : n = 0
  · subst hn; decide
  · unfold natToChars
    rw [if_neg hn]
    obtain ⟨k, hk⟩ : ∃ k, n = k + 1 := ⟨n - 1, by omega⟩
    have hne : natToCharsGo n n ≠ [] := by
      rw [hk]
      simp [natToCharsGo, Nat.succ_ne_zero]
    have : parseDigitsGo 0 (natToCharsGo n n ++ []) =
        parseDigitsGo (0 * 10 ^ (natToCharsGo n n).length + n) [] :=
      parseDigitsGo_natToCharsGo n n (le_refl n) 0 []
    simp only [List.append_nil, Nat.zero_mul, Nat.zero_add] at this
    unfold parseDigits
    split
    · exact absurd (by assumption) hne
    · rw [this]; rfl

/-- `int(str(n))` round trip for non-negative integers. -/
theorem parsePyInt_intToStr {n : Int} (h : 0 ≤ n) : parsePyInt (intToStr n) = some n := by
  unfold intToStr
  rw [if_neg (by omega)]
  unfold parsePyInt
  have hdata : (⟨natToChars n.toNat⟩ : String).data = natToChars n.toNat := rfl
  rw [hdata, stripList_eq_self
    (fun c hc => isPySpace_false_of_digit (natToChars_digits c hc))]
  have hdigit : ∀ c ∈ natToChars n.toNat, isDigitChar c = true := natToChars_digits
  have hparse := parseDigits_natToChars n.toNat
  match hm : natToChars n.toNat with
  | [] => rw [hm] at hparse; simp [parseDigits] at hparse
  | c :: cs =>
      have hc := hdigit c (by rw [hm]; exact List.mem_cons_self c cs)
      have hcminus : c ≠ '-' := by
        intro hcc
        have := toNat_of_eq_char hcc
        simp only [isDigitChar, decide_eq_true_eq] at hc
        rw [minuschar_toNat] at this
        omega
      have hcplus : c ≠ '+' := by
        intro hcc
        have := toNat_of_eq_char hcc
        simp only [isDigitChar, decide_eq_true_eq] at hc
        rw [pluschar_toNat] at this
        omega
      rw [hm] at hparse
      split
      · rename_i rest heq
        exact absurd (by rw [List.cons.injEq] at heq; exact heq.1) hcminus
      · rename_i rest heq
        exact absurd (by rw [List.cons.injEq] at heq; exact heq.1) hcplus
      · rw [hparse]
        show some ((n.toNat : Int)) = some n
        rw [Int.toNat_of_nonneg h]

/-! ## Account-table helper lemmas -/

/-- The row transformer underlying `updateBalance`. -/
def balanceXform (accountId : String) (f : Int → Int) (a : AccountRow) : AccountRow :=
  if a.id == accountId then { a with balanceSats := f a.balanceSats } else a

theorem updateBalance_eq_map (accounts : List AccountRow) (accountId : String)
    (f : Int → Int) : updateBalance accounts accountId f =
      accounts.map (balanceXform accountId f) := rfl

theorem balanceXform_id (accountId : String) (f : Int → Int) (a : AccountRow) :
    (balanceXform accountId f a).id = a.id := by
  unfold balanceXform
  split <;> rfl

theorem updateBalance_map_id (accounts : List AccountRow) (accountId : String)
    (f : Int → Int) :
    (updateBalance accounts accountId f).map (fun a => a.id) =
      accounts.map (fun a => a.id) := by
  rw [updateBalance_eq_map, List.map_map]
  exact List.map_congr_left (fun a _ => balanceXform_id accountId f a)

theorem find?_updateBalance (accounts : List AccountRow) (accountId target : String)
    (f : Int → Int) :
    (updateBalance accounts accountId f).find? (fun a => a.id == target) =
      (accounts.find? (fun a => a.id == target)).map (balanceXform accountId f) := by
  rw [updateBalance_eq_map, List.find?_map]
  have : (fun a => a.id == target) ∘ balanceXform accountId f =
      (fun a : AccountRow => a.id == target) := by
    funext a
    simp [Function.comp, balanceXform_id]
  rw [this]

theorem updateBalance_nonneg_mono {accounts : List AccountRow} {accountId : String}
    {f : Int → Int} (h0 : ∀ a ∈ accounts, 0 ≤ a.balanceSats)
    (hf : ∀ b : Int, 0 ≤ b → 0 ≤ f b) :
    ∀ a ∈ updateBalance accounts accountId f, 0 ≤ a.balanceSats := by
  intro a' ha'
  rw [updateBalance_eq_map] at ha'
  obtain ⟨a, ha, rfl⟩ := List.mem_map.mp ha'
  unfold balanceXform
  split
  · exact hf _ (h0 a ha)
  · exact h0 a ha

theorem updateBalance_nonneg_debit {accounts : List AccountRow} {r : AccountRow}
    {f : Int → Int} (hnodup : (accounts.map (fun a => a.id)).Nodup)
    (hr : r ∈ accounts) (h0 : ∀ a ∈ accounts, 0 ≤ a.balanceSats)
    (hf : 0 ≤ f r.balanceSats) :
    ∀ a ∈ updateBalance accounts r.id f, 0 ≤ a.balanceSats := by
  intro a' ha'
  rw [updateBalance_eq_map] at ha'
  obtain ⟨a, ha, rfl⟩ := List.mem_map.mp ha'
  unfold balanceXform
  split
  · rename_i hid
    have : a = r := List.inj_on_of_nodup_map hnodup ha hr (by simpa using hid)
    subst this
    exact hf
  · exact h0 a ha

/-- Rows found by `find?` satisfy the predicate and belong to the list. -/
theorem find?_mem_and_pred {α : Type} {p : α → Bool} {l : List α} {x : α}
    (h : l.find? p = some x) : x ∈ l ∧ p x = true :=
  ⟨List.mem_of_find?_eq_some h, List.find?_some h⟩

/-- `find?` commutes with a `map` whose transformer preserves the predicate. -/
theorem find?_map_pres {α : Type} {g : α → α} {p : α → Bool}
    (hp : ∀ a, p (g a) = p a) (l : List α) :
    (l.map g).find? p = (l.find? p).map g := by
  rw [List.find?_map]
  have : p ∘ g = p := by funext a; exact hp a
  rw [this]

/-! ## Hex / SHA output-shape lemmas -/

theorem isLowerHexChar_hexChar {m : Nat} (h : m < 16) :
    isLowerHexChar (hexChar m) = true := by
  unfold hexChar
  split
  · simp only [isLowerHexChar, char_toNat_ofNat (show 48 + m < 55296 by omega),
      Bool.or_eq_true, decide_eq_true_eq]
    omega
  · simp only [isLowerHexChar, char_toNat_ofNat (show 87 + m < 55296 by omega),
      Bool.or_eq_true, decide_eq_true_eq]
    omega

theorem bytesToHex_lowerHex (bs : List Nat) :
    ∀ c ∈ (bytesToHex bs).data, isLowerHexChar c = true := by
  induction bs with
  | nil => intro c hc; simp [bytesToHex] at hc
  | cons b bs ih =>
      intro c hc
      have hc' : c ∈ hexChar (b / 16 % 16) :: hexChar (b % 16) :: (bytesToHex bs).data := hc
      simp only [List.mem_cons] at hc'
      rcases hc' with rfl | rfl | hmem
      · exact isLowerHexChar_hexChar (Nat.mod_lt _ (by omega))
      · exact isLowerHexChar_hexChar (Nat.mod_lt _ (by omega))
      · exact ih c hmem

theorem bytesToHex_data_length (bs : List Nat) :
    (bytesToHex bs).data.length = 2 * bs.length := by
  induction bs with
  | nil => rfl
  | cons b bs ih =>
      show (hexChar (b / 16 % 16) :: hexChar (b % 16) :: (bytesToHex bs).data).length = _
      simp only [List.length_cons, ih, List.length_cons]
      omega

theorem sha256Bytes_length (msg : List Nat) : (sha256Bytes msg).length = 32 := by
  simp [sha256Bytes, wordToBytes]

theorem wordToBytes_lt (n : Nat) : ∀ b ∈ wordToBytes n, b < 256 := by
  intro b hb
  simp only [wordToBytes, List.mem_cons, List.not_mem_nil, or_false] at hb
  rcases hb with rfl | rfl | rfl | rfl <;> exact Nat.mod_lt _ (by omega)

theorem sha256Bytes_bytes_lt (msg : List Nat) : ∀ b ∈ sha256Bytes msg, b < 256 := by
  intro b hb
  unfold sha256Bytes at hb
  simp only [List.mem_append] at hb
  rcases hb with ((((((h | h) | h) | h) | h) | h) | h) | h <;> exact wordToBytes_lt _ b h

theorem plower_eq_self_of_lowerHex {s : String}
    (h : ∀ c ∈ s.data, isLowerHexChar c = true) : plower s = s :=
  plower_eq_self (fun c hc => lowerChar_eq_self_of_lowerHex (h c hc))

theorem string_ne_empty_of_data_ne {s : String} (h : s.data ≠ []) : s ≠ "" := by
  intro he
  exact h (by rw [he])

theorem hexDigitVal_hexChar {m : Nat} (h : m < 16) : hexDigitVal (hexChar m) = some m := by
  unfold hexChar hexDigitVal
  by_cases hm : m < 10
  · rw [if_pos hm, char_toNat_ofNat (show 48 + m < 55296 by omega)]
    rw [if_pos ⟨by omega, by omega⟩]
    congr 1
    omega
  · rw [if_neg hm, char_toNat_ofNat (show 87 + m < 55296 by omega)]
    rw [if_neg (by omega), if_pos ⟨by omega, by omega⟩]
    congr 1
    omega

theorem fromhex_bytesToHex {bs : List Nat} (h : ∀ b ∈ bs, b < 256) :
    fromhex (bytesToHex bs) = some bs := by
  induction bs with
  | nil => rfl
  | cons b bs ih =>
      have hb := h b (List.mem_cons_self b bs)
      have hhi : b / 16 % 16 < 16 := Nat.mod_lt _ (by omega)
      have hlo : b % 16 < 16 := Nat.mod_lt _ (by omega)
      show fromhexList (hexChar (b / 16 % 16) :: hexChar (b % 16) :: (bytesToHex bs).data) =
        some (b :: bs)
      have ihh : fromhexList (bytesToHex bs).data = some bs :=
        ih (fun x hx => h x (List.mem_cons_of_mem b hx))
      unfold fromhexList
      rw [if_neg (by
        rw [isPySpace_false_of_lowerHex (isLowerHexChar_hexChar hhi)]
        simp)]
      simp only [hexDigitVal_hexChar hhi, hexDigitVal_hexChar hlo, ihh,
        Option.map_some']
      congr 2
      have h1 : b / 16 % 16 = b / 16 := Nat.mod_eq_of_lt (by omega)
      rw [h1]
      have := Nat.div_add_mod b 16
      omega

theorem hashFromPreimage_bytesToHex {raw : List Nat} (hlen : raw.length = 32)
    (hb : ∀ b ∈ raw, b < 256) :
    hashFromPreimage (bytesToHex raw) = .ok (bytesToHex (sha256Bytes raw)) := by
  unfold hashFromPreimage
  have hstr : pstrip (bytesToHex raw) = bytesToHex raw :=
    pstrip_eq_self (fun c hc => isPySpace_false_of_lowerHex (bytesToHex_lowerHex raw c hc))
  rw [hstr]
  rw [if_neg (string_ne_empty_of_data_ne (by
    intro hd
    have := bytesToHex_data_length raw
    rw [hd, hlen] at this
    simp at this))]
  rw [fromhex_bytesToHex hb]
  show (if raw.length ≠ 32 then Except.error PreimageError.mustBe32Bytes
    else Except.ok (bytesToHex (sha256Bytes raw))) = Except.ok (bytesToHex (sha256Bytes raw))
  rw [if_neg (by simp [hlen])]

/-! ## Used-hash cleanup lemmas -/

theorem maybeCleanup_ttl (s : UsedHashSet) (now : Int) :
    (s.maybeCleanup now).ttlSeconds = s.ttlSeconds := by
  unfold UsedHashSet.maybeCleanup UsedHashSet.cleanupAt
  split <;> rfl

theorem member_maybeCleanup_false {s : UsedHashSet} {x : String} {t : Int}
    (h : s.member x = false) : (s.maybeCleanup t).member x = false := by
  unfold UsedHashSet.maybeCleanup UsedHashSet.cleanupAt
  split
  · unfold UsedHashSet.member at h ⊢
    simp only [List.any_eq_false] at h ⊢
    intro e he
    exact h e (List.mem_of_mem_filter he)
  · exact h

/-- `is_used` on a canonical, non-empty hash: the answer is membership in the
cleaned set, which is also the returned state. -/
theorem isUsed_spec {s : UsedHashSet} {ph : String} {now : Int}
    (hlow : plower ph = ph) (hne : ph ≠ "") :
    s.isUsed ph now = ((s.maybeCleanup now).member ph, s.maybeCleanup now) := by
  unfold UsedHashSet.isUsed
  rw [hlow, if_neg hne]

/-- `mark_used` on a canonical, non-empty, absent hash inserts it. -/
theorem markUsed_spec_absent {s : UsedHashSet} {ph : String} {now : Int}
    (hlow : plower ph = ph) (hne : ph ≠ "")
    (hmem : (s.maybeCleanup now).member ph = false) :
    s.markUsed ph now = (true,
      { s.maybeCleanup now with
        usedHashes := (s.maybeCleanup now).usedHashes ++ [(ph, now)] }) := by
  unfold UsedHashSet.markUsed
  rw [hlow, if_neg hne]
  simp only [hmem]
  rfl

/-- `mark_used` on a canonical, non-empty, present hash refuses. -/
theorem markUsed_spec_present {s : UsedHashSet} {ph : String} {now : Int}
    (hlow : plower ph = ph) (hne : ph ≠ "")
    (hmem : (s.maybeCleanup now).member ph = true) :
    s.markUsed ph now = (false, s.maybeCleanup now) := by
  unfold UsedHashSet.markUsed
  rw [hlow, if_neg hne]
  simp only [hmem]
  rfl

/-- An entry appended to the used-hash list is a member. -/
theorem member_append_self (s : UsedHashSet) (ph : String) (t : Int) :
    UsedHashSet.member { s with usedHashes := s.usedHashes ++ [(ph, t)] } ph = true := by
  unfold UsedHashSet.member
  simp only [List.any_eq_true]
  exact ⟨(ph, t), List.mem_append_right _ (List.mem_singleton.mpr rfl), by simp⟩

/-- A hash inserted at `tIns` is still a member after an opportunistic
cleanup at `tNow`, provided `tIns` is within the TTL window. -/
theorem member_after_insert_within_ttl (u : UsedHashSet) (ph : String)
    (tIns tNow : Int) (h : tNow - u.ttlSeconds ≤ tIns) :
    ((UsedHashSet.maybeCleanup
        { u with usedHashes := u.usedHashes ++ [(ph, tIns)] } tNow).member ph) = true := by
  unfold UsedHashSet.maybeCleanup
  split
  · unfold UsedHashSet.cleanupAt UsedHashSet.member
    simp only [List.any_eq_true]
    refine ⟨(ph, tIns), List.mem_filter.mpr
      ⟨List.mem_append_right _ (List.mem_singleton.mpr rfl), ?_⟩, by simp⟩
    simp only [decide_eq_true_eq]
    exact h
  · exact member_append_self u ph tIns

/-! ## Claim theorems -/

/-- C10: `UsedHashSet.mark_used` is a put-if-absent.  For every non-empty
(lowercased) payment hash: if the hash is already present (after the
opportunistic cleanup) the call returns `false` and only the cleanup has
touched the set; otherwise it inserts the hash at the current time and
returns `true`.  Consequently, of two redemptions of the same hash whose
second call comes no later than `ttl_seconds` after the first successful one,
the second returns `false`. -/
theorem claim_C10_markUsed_put_if_absent :
    ∀ (s : UsedHashSet) (h : String) (now : Int), plower h ≠ "" →
      ((s.maybeCleanup now).member (plower h) = true →
         s.markUsed h now = (false, s.maybeCleanup now)) ∧
      ((s.maybeCleanup now).member (plower h) = false →
         s.markUsed h now = (true,
           { s.maybeCleanup now with
             usedHashes := (s.maybeCleanup now).usedHashes ++ [(plower h, now)] })) ∧
      (∀ (s' : UsedHashSet) (now2 : Int), s.markUsed h now = (true, s') →
         now ≤ now2 → now2 - now ≤ s.ttlSeconds → (s'.markUsed h now2).1 = false) := by
  intro s h now hne
  refine ⟨?_, ?_, ?_⟩
  · intro hmem
    unfold UsedHashSet.markUsed
    rw [if_neg hne]
    simp only [hmem, if_true]
  · intro hmem
    unfold UsedHashSet.markUsed
    rw [if_neg hne]
    simp only [hmem]
    rfl
  · intro s' now2 heq hle httl
    unfold UsedHashSet.markUsed at heq
    rw [if_neg hne] at heq
    by_cases hmem : (s.maybeCleanup now).member (plower h) = true
    · simp only [hmem, if_true] at heq
      exact absurd (((Prod.mk.injEq _ _ _ _).mp heq).1) (by simp)
    · have hmem' : (s.maybeCleanup now).member (plower h) = false :=
        Bool.eq_false_iff.mpr hmem
      simp only [hmem', Bool.false_eq_true, if_false] at heq
      have hs' : s' = { s.maybeCleanup now with
          usedHashes := (s.maybeCleanup now).usedHashes ++ [(plower h, now)] } :=
        (((Prod.mk.injEq _ _ _ _).mp heq).2).symm
      subst hs'
      have httl' : (s.maybeCleanup now).ttlSeconds = s.ttlSeconds := maybeCleanup_ttl s now
      unfold UsedHashSet.markUsed
      rw [if_neg hne]
      have hm2 : (UsedHashSet.maybeCleanup
          { s.maybeCleanup now with
            usedHashes := (s.maybeCleanup now).usedHashes ++ [(plower h, now)] } now2).member
          (plower h) = true :=
        member_after_insert_within_ttl (s.maybeCleanup now) (plower h) now now2
          (by rw [httl']; omega)
      simp only [hm2, if_true]

/-- C10 witness: marking a fresh hash inserts it and returns `true`; a second
redemption 500 seconds later returns `false`. -/
theorem claim_C10_witness :
    (UsedHashSet.empty 3600 300).markUsed "AB" 1000 =
      (true, { (UsedHashSet.empty 3600 300).maybeCleanup 1000 with
        usedHashes := ((UsedHashSet.empty 3600 300).maybeCleanup 1000).usedHashes ++
          [(plower "AB", 1000)] }) ∧
    (((UsedHashSet.empty 3600 300).maybeCleanup 1000).member (plower "AB") = false) ∧
    (∀ s', (UsedHashSet.empty 3600 300).markUsed "AB" 1000 = (true, s') →
       (s'.markUsed "AB" 1500).1 = false) := by
  have t := claim_C10_markUsed_put_if_absent (UsedHashSet.empty 3600 300) "AB" 1000
    (by decide)
  exact ⟨t.2.1 (by decide), by decide,
    fun s' heq => t.2.2 s' 1500 heq (by decide) (by decide)⟩

/-- C9: `_hash_from_preimage` accepts exactly those preimage strings that,
after stripping whitespace, hex-decode to exactly 32 bytes; for those it
returns the lowercase-hex SHA-256 of the decoded bytes, and every other input
(empty, non-hex, or wrong length) is rejected with a typed error. -/
theorem claim_C9_preimage_codec :
    ∀ p : String,
      (∀ raw, fromhex (pstrip p) = some raw → raw.length = 32 →
         hashFromPreimage p = .ok (bytesToHex (sha256Bytes raw)) ∧
         ∀ c ∈ (bytesToHex (sha256Bytes raw)).data, isLowerHexChar c = true) ∧
      ((∀ raw, fromhex (pstrip p) = some raw → raw.length ≠ 32) →
         ∃ e, hashFromPreimage p = .error e) := by
  intro p
  constructor
  · intro raw hraw hlen
    refine ⟨?_, bytesToHex_lowerHex (sha256Bytes raw)⟩
    by_cases hemp : pstrip p = ""
    · rw [hemp] at hraw
      have : raw = [] := by
        have h0 : fromhex "" = some [] := rfl
        rw [h0] at hraw
        exact (Option.some.injEq _ _ ▸ hraw.symm)
      rw [this] at hlen
      simp at hlen
    · unfold hashFromPreimage
      rw [if_neg hemp, hraw]
      show (if raw.length ≠ 32 then Except.error PreimageError.mustBe32Bytes
        else Except.ok (bytesToHex (sha256Bytes raw))) = _
      rw [if_neg (by simp [hlen])]
  · intro hbad
    by_cases hemp : pstrip p = ""
    · exact ⟨.missingPreimage, by unfold hashFromPreimage; rw [if_pos hemp]⟩
    · cases hfx : fromhex (pstrip p) with
      | none =>
          exact ⟨.mustBeHex, by unfold hashFromPreimage; rw [if_neg hemp, hfx]⟩
      | some raw =>
          refine ⟨.mustBe32Bytes, ?_⟩
          unfold hashFromPreimage
          rw [if_neg hemp, hfx]
          show (if raw.length ≠ 32 then Except.error PreimageError.mustBe32Bytes
            else Except.ok (bytesToHex (sha256Bytes raw))) = _
          rw [if_pos (hbad raw hfx)]

/-- C9 witness: the hex encoding of the 32 bytes `0,…,31` is accepted and
hashed; the non-hex string `"xyz"` is rejected. -/
theorem claim_C9_witness :
    hashFromPreimage (bytesToHex (List.range 32)) =
      .ok (bytesToHex (sha256Bytes (List.range 32))) ∧
    (∃ e, hashFromPreimage "xyz" = .error e) := by
  constructor
  · exact ((claim_C9_preimage_codec (bytesToHex (List.range 32))).1 (List.range 32)
      (by decide) (by decide)).1
  · exact (claim_C9_preimage_codec "xyz").2 (by
      intro raw hr
      rw [show fromhex (pstrip "xyz") = none by decide] at hr
      exact Option.noConfusion hr)

/-- C7: a successful `confirm_delivery` (buyer caller, task `delivered`, an
accepted quote present) credits the contractor's account by exactly the
accepted quote's `price_sats`, appends the matching
`hire:escrow_release:<task>` usage-log entry in the same transaction, and
moves the task to `completed`. -/
theorem claim_C7_confirm_delivery :
    ∀ (db : DB) (taskId caller : String) (task : TaskRow) (quote : QuoteRow)
      (acct : AccountRow),
      findTask db taskId = some task →
      task.status = "delivered" →
      task.buyerAccountId = caller →
      db.quotes.find? (fun q => q.taskId == taskId && q.status == "accepted") = some quote →
      findAccountById db quote.contractorAccountId = some acct →
      ∃ db', confirmDelivery db taskId caller =
          .ok (⟨taskId, "completed", quote.priceSats, quote.contractorAccountId⟩, db') ∧
        balanceOf db' quote.contractorAccountId =
          some (acct.balanceSats + quote.priceSats) ∧
        db'.usageLog = db.usageLog ++
          [⟨quote.contractorAccountId, "hire:escrow_release:" ++ taskId, quote.priceSats⟩] ∧
        findTask db' taskId = some { task with status := "completed" } := by
  intro db taskId caller task quote acct h1 h2 h3 h4 h5
  refine ⟨{ db with
      accounts := updateBalance db.accounts quote.contractorAccountId
        (fun b => b + quote.priceSats)
      usageLog := db.usageLog ++
        [⟨quote.contractorAccountId, "hire:escrow_release:" ++ taskId, quote.priceSats⟩]
      tasks := db.tasks.map (fun t =>
        if t.id == taskId then { t with status := "completed" } else t) },
    ?_, ?_, rfl, ?_⟩
  · simp [confirmDelivery, h1, h2, h3, h4]
  · unfold balanceOf findAccountById
    show ((updateBalance db.accounts quote.contractorAccountId
      (fun b => b + quote.priceSats)).find? (fun a => a.id == quote.contractorAccountId)).map
        (fun a => a.balanceSats) = _
    rw [find?_updateBalance]
    unfold findAccountById at h5
    rw [h5]
    have hpred := List.find?_some h5
    simp only [Option.map_some', balanceXform, hpred, if_true]
  · unfold findTask
    show (db.tasks.map (fun t => if t.id == taskId then { t with status := "completed" }
      else t)).find? (fun t => t.id == taskId) = _
    rw [find?_map_pres (by intro a; by_cases ha : (a.id == taskId) = true <;>
      simp [ha])]
    unfold findTask at h1
    rw [h1]
    have hpred := List.find?_some h1
    simp only [Option.map_some', hpred, if_true]

/-- C7 witness: a concrete delivered task with an accepted 80-sat quote;
confirming credits the contractor from 7 to 87 sats, logs the release, and
completes the task. -/
theorem claim_C7_witness :
    ∃ db', confirmDelivery
        ⟨[⟨"B", "thB", 100⟩, ⟨"C", "thC", 7⟩], [], [],
         [⟨"T", "B", "t", "d", 100, "delivered"⟩],
         [⟨"Q", "T", "C", 80, "", "accepted"⟩], [], []⟩ "T" "B" =
        .ok (⟨"T", "completed", 80, "C"⟩, db') ∧
      balanceOf db' "C" = some (7 + 80) ∧
      db'.usageLog = [] ++ [⟨"C", "hire:escrow_release:" ++ "T", 80⟩] ∧
      findTask db' "T" = some ⟨"T", "B", "t", "d", 100, "completed"⟩ := by
  exact claim_C7_confirm_delivery
    ⟨[⟨"B", "thB", 100⟩, ⟨"C", "thC", 7⟩], [], [],
     [⟨"T", "B", "t", "d", 100, "delivered"⟩],
     [⟨"Q", "T", "C", 80, "", "accepted"⟩], [], []⟩ "T" "B"
    ⟨"T", "B", "t", "d", 100, "delivered"⟩ ⟨"Q", "T", "C", 80, "", "accepted"⟩
    ⟨"C", "thC", 7⟩ (by decide) rfl rfl (by decide) (by decide)

/-! ## Invariant preservation machinery (for C3) -/

theorem nodup_append_singleton {l : List String} {x : String} (h : l.Nodup)
    (hx : x ∉ l) : (l ++ [x]).Nodup := by
  rw [List.nodup_append]
  exact ⟨h, List.nodup_singleton x,
    fun a ha hb => hx ((List.mem_singleton.mp hb) ▸ ha)⟩

theorem quotes_pos_map {quotes : List QuoteRow} {g : QuoteRow → QuoteRow}
    (hg : ∀ q, (g q).priceSats = q.priceSats)
    (h : ∀ q ∈ quotes, 0 < q.priceSats) :
    ∀ q ∈ quotes.map g, 0 < q.priceSats := by
  intro q' hq'
  obtain ⟨q, hq, rfl⟩ := List.mem_map.mp hq'
  rw [hg q]
  exact h q hq

/-- `claimCredit` preserves the database invariant when the credited amount is
non-negative. -/
theorem claimCredit_dbInv {db0 : DB} {inv : InvoiceRow} {sel tok : String}
    {r : TopupClaimResult} {db' : DB} (hinv : DBInv db0)
    (hamt : 0 ≤ inv.amountSats)
    (hok : claimCredit db0 inv sel tok = .ok (r, db')) : DBInv db' := by
  simp only [claimCredit] at hok
  cases hfind : (updateBalance db0.accounts sel
      (fun b => b + inv.amountSats)).find? (fun a => a.id == sel) with
  | none => rw [hfind] at hok; cases hok
  | some balanceRow =>
      rw [hfind] at hok
      have hdb : db' = { db0 with
          accounts := updateBalance db0.accounts sel (fun b => b + inv.amountSats)
          invoices := db0.invoices.map (fun i =>
            if i.paymentHash == inv.paymentHash then
              { i with status := "paid", accountId := some sel }
            else i) } := by
        cases hok
        rfl
      subst hdb
      refine ⟨?_, hinv.quotesPos, ?_, ?_⟩
      · show ∀ a ∈ updateBalance db0.accounts sel (fun b => b + inv.amountSats),
          0 ≤ a.balanceSats
        exact updateBalance_nonneg_mono hinv.balancesNonneg (fun b hb => by omega)
      · intro i' hi'
        obtain ⟨i, hi, rfl⟩ := List.mem_map.mp hi'
        have := hinv.invoicesPos i hi
        split <;> exact this
      · show ((updateBalance db0.accounts sel (fun b => b + inv.amountSats)).map
          (fun a => a.id)).Nodup
        rw [updateBalance_map_id]
        exact hinv.idsNodup

/-- Appending a zero-balance account with a fresh id preserves the invariant. -/
theorem dbInv_append_fresh_account {db : DB} (hinv : DBInv db)
    {freshAccountId th : String} (hfresh : freshAccountId ∉ accountIds db) :
    DBInv { db with accounts :=
      db.accounts ++ [(⟨freshAccountId, th, 0⟩ : AccountRow)] } := by
  refine ⟨?_, hinv.quotesPos, hinv.invoicesPos, ?_⟩
  · intro a ha
    rcases List.mem_append.mp ha with h | h
    · exact hinv.balancesNonneg a h
    · rw [List.mem_singleton.mp h]
  · show ((db.accounts ++ [(⟨freshAccountId, th, 0⟩ : AccountRow)]).map
      (fun a => a.id)).Nodup
    rw [List.map_append]
    exact nodup_append_singleton hinv.idsNodup hfresh

/-- Every store operation preserves the database invariant. -/
theorem dbInv_step {db db' : DB} (hinv : DBInv db) (hstep : Step db db') : DBInv db' := by
  cases hstep with
  | createAccount freshAccountId freshToken hfresh =>
      exact dbInv_append_fresh_account hinv hfresh
  | createTopupInvoice ph amt acc hpos =>
      unfold createTopupInvoice
      split
      · refine ⟨hinv.balancesNonneg, hinv.quotesPos, ?_, hinv.idsNodup⟩
        intro i' hi'
        obtain ⟨i, hi, rfl⟩ := List.mem_map.mp hi'
        split
        · exact hpos
        · exact hinv.invoicesPos i hi
      · refine ⟨hinv.balancesNonneg, hinv.quotesPos, ?_, hinv.idsNodup⟩
        intro i' hi'
        rcases List.mem_append.mp hi' with h | h
        · exact hinv.invoicesPos i' h
        · rw [List.mem_singleton.mp h]
          exact hpos
  | claimTopupInvoice ph token freshAccountId freshToken r db' hfresh hok =>
      simp only [claimTopupInvoice] at hok
      split at hok
      · exact Except.noConfusion hok
      · rename_i inv hfi
        have hamt : 0 ≤ inv.amountSats := by
          have := hinv.invoicesPos inv (List.mem_of_find?_eq_some hfi)
          omega
        split at hok
        · exact Except.noConfusion hok
        · split at hok
          · split at hok
            · exact Except.noConfusion hok
            · rename_i accountRow hfa
              split at hok
              · split at hok
                · exact Except.noConfusion hok
                · exact claimCredit_dbInv hinv hamt hok
              · exact claimCredit_dbInv hinv hamt hok
          · split at hok
            · exact Except.noConfusion hok
            · exact claimCredit_dbInv (dbInv_append_fresh_account hinv hfresh) hamt hok
  | debitTokenBalance token amt endpoint r db' hok =>
      simp only [debitTokenBalance] at hok
      split at hok
      · exact Except.noConfusion hok
      · rename_i row hfa
        split at hok
        · exact Except.noConfusion hok
        · rename_i hge
          split at hok
          · exact Except.noConfusion hok
          · rename_i updated hfind2
            have hdb : db' = { db with
                accounts := updateBalance db.accounts row.id (fun b => b - amt)
                usageLog := db.usageLog ++ [⟨row.id, endpoint, amt⟩] } := by
              cases hok; rfl
            subst hdb
            refine ⟨?_, hinv.quotesPos, hinv.invoicesPos, ?_⟩
            · show ∀ a ∈ updateBalance db.accounts row.id (fun b => b - amt),
                0 ≤ a.balanceSats
              exact updateBalance_nonneg_debit hinv.idsNodup
                (List.mem_of_find?_eq_some hfa) hinv.balancesNonneg (by omega)
            · show ((updateBalance db.accounts row.id (fun b => b - amt)).map
                (fun a => a.id)).Nodup
              rw [updateBalance_map_id]
              exact hinv.idsNodup
  | debitAccount accountId amt endpoint db' hok =>
      simp only [ALBM.debitAccount] at hok
      split at hok
      · exact Except.noConfusion hok
      · rename_i row hfa
        split at hok
        · exact Except.noConfusion hok
        · rename_i hge
          have hdb : db' = { db with
              accounts := updateBalance db.accounts accountId (fun b => b - amt)
              usageLog := db.usageLog ++ [⟨accountId, endpoint, amt⟩] } := by
            cases hok; rfl
          subst hdb
          have hid : row.id = accountId := by
            have := List.find?_some hfa
            simpa using this
          refine ⟨?_, hinv.quotesPos, hinv.invoicesPos, ?_⟩
          · show ∀ a ∈ updateBalance db.accounts accountId (fun b => b - amt),
              0 ≤ a.balanceSats
            rw [← hid]
            exact updateBalance_nonneg_debit hinv.idsNodup
              (List.mem_of_find?_eq_some hfa) hinv.balancesNonneg (by omega)
          · show ((updateBalance db.accounts accountId (fun b => b - amt)).map
              (fun a => a.id)).Nodup
            rw [updateBalance_map_id]
            exact hinv.idsNodup
  | creditAccount accountId amt hpos =>
      show DBInv { db with
        accounts := updateBalance db.accounts accountId (fun b => b + amt) }
      refine ⟨?_, hinv.quotesPos, hinv.invoicesPos, ?_⟩
      · show ∀ a ∈ updateBalance db.accounts accountId (fun b => b + amt),
          0 ≤ a.balanceSats
        exact updateBalance_nonneg_mono hinv.balancesNonneg (fun b hb => by omega)
      · show ((updateBalance db.accounts accountId (fun b => b + amt)).map
          (fun a => a.id)).Nodup
        rw [updateBalance_map_id]
        exact hinv.idsNodup
  | createTask freshTaskId buyer title description budget hpos =>
      exact ⟨hinv.balancesNonneg, hinv.quotesPos, hinv.invoicesPos, hinv.idsNodup⟩
  | createQuote freshQuoteId taskId contractor priceSats description r db' hpos hok =>
      simp only [ALBM.createQuote] at hok
      split at hok
      · exact Except.noConfusion hok
      · split at hok
        · exact Except.noConfusion hok
        · split at hok
          · exact Except.noConfusion hok
          · have hdb : db' = { db with quotes := db.quotes ++
                [⟨freshQuoteId, taskId, contractor, priceSats, description, "pending"⟩] } := by
              cases hok; rfl
            subst hdb
            refine ⟨hinv.balancesNonneg, ?_, hinv.invoicesPos, hinv.idsNodup⟩
            intro q hq
            rcases List.mem_append.mp hq with h | h
            · exact hinv.quotesPos q h
            · rw [List.mem_singleton.mp h]
              exact hpos
  | updateQuote taskId quoteId caller priceSats description db' hok =>
      simp only [ALBM.updateQuote] at hok
      split at hok
      · exact Except.noConfusion hok
      · rename_i quote hfq
        split at hok
        · exact Except.noConfusion hok
        · split at hok
          · exact Except.noConfusion hok
          · cases priceSats with
            | some p =>
                dsimp only at hok
                split at hok
                · exact Except.noConfusion hok
                · rename_i hple
                  have hdb : db' = { db with quotes := db.quotes.map (fun q =>
                      if q.id == quoteId then
                        { q with
                          priceSats := p
                          description := description.getD q.description }
                      else q) } := by
                    cases hok; rfl
                  subst hdb
                  refine ⟨hinv.balancesNonneg, ?_, hinv.invoicesPos, hinv.idsNodup⟩
                  intro q' hq'
                  obtain ⟨q, hq, rfl⟩ := List.mem_map.mp hq'
                  split
                  · show 0 < p
                    omega
                  · exact hinv.quotesPos q hq
            | none =>
                cases description with
                | some d =>
                    have hdb : db' = { db with quotes := db.quotes.map (fun q =>
                        if q.id == quoteId then { q with description := d }
                        else q) } := by
                      cases hok; rfl
                    subst hdb
                    refine ⟨hinv.balancesNonneg, ?_, hinv.invoicesPos, hinv.idsNodup⟩
                    refine quotes_pos_map ?_ hinv.quotesPos
                    intro q
                    split <;> rfl
                | none => exact Except.noConfusion hok
  | acceptQuote taskId quoteId caller skipDebit r db' hok =>
      simp only [ALBM.acceptQuote] at hok
      split at hok
      · exact Except.noConfusion hok
      · rename_i task hft
        split at hok
        · exact Except.noConfusion hok
        · split at hok
          · exact Except.noConfusion hok
          · split at hok
            · exact Except.noConfusion hok
            · rename_i quote hfq
              split at hok
              · exact Except.noConfusion hok
              · split at hok
                · exact Except.noConfusion hok
                · rename_i accounts heqacc
                  have hdb : db' = { db with
                      accounts := accounts
                      usageLog := db.usageLog ++
                        [⟨caller, "hire:escrow_lock:" ++ taskId, quote.priceSats⟩]
                      quotes := db.quotes.map (fun q =>
                        if q.id == quoteId then { q with status := "accepted" }
                        else if q.taskId == taskId && q.id != quoteId &&
                            q.status == "pending" then
                          { q with status := "rejected" }
                        else q)
                      tasks := db.tasks.map (fun t =>
                        if t.id == taskId then { t with status := "in_escrow" }
                        else t) } := by
                    cases hok; rfl
                  subst hdb
                  have haccounts : ∀ a ∈ accounts, 0 ≤ a.balanceSats ∧
                      True := by
                    intro a ha
                    refine ⟨?_, trivial⟩
                    rcases hskip : skipDebit with _ | _
                    · rw [hskip] at heqacc
                      simp only [Bool.not_false, if_true] at heqacc
                      split at heqacc
                      · exact Except.noConfusion heqacc
                      · rename_i buyer hfb
                        split at heqacc
                        · exact Except.noConfusion heqacc
                        · rename_i hge
                          have hacc : accounts = updateBalance db.accounts caller
                              (fun b => b - quote.priceSats) :=
                            (Except.ok.injEq _ _ ▸ heqacc.symm)
                          subst hacc
                          have hid : buyer.id = caller := by
                            have := List.find?_some hfb
                            simpa using this
                          revert a ha
                          show ∀ a ∈ updateBalance db.accounts caller
                            (fun b => b - quote.priceSats), 0 ≤ a.balanceSats
                          rw [← hid]
                          exact updateBalance_nonneg_debit hinv.idsNodup
                            (List.mem_of_find?_eq_some hfb) hinv.balancesNonneg (by omega)
                    · rw [hskip] at heqacc
                      simp only [Bool.not_true, Bool.false_eq_true, if_false] at heqacc
                      have hacc : accounts = db.accounts :=
                        (Except.ok.injEq _ _ ▸ heqacc.symm)
                      subst hacc
                      exact hinv.balancesNonneg a ha
                  have hids : accounts.map (fun a => a.id) =
                      db.accounts.map (fun a => a.id) := by
                    rcases hskip : skipDebit with _ | _
                    · rw [hskip] at heqacc
                      simp only [Bool.not_false, if_true] at heqacc
                      split at heqacc
                      · exact Except.noConfusion heqacc
                      · split at heqacc
                        · exact Except.noConfusion heqacc
                        · have hacc : accounts = updateBalance db.accounts caller
                              (fun b => b - quote.priceSats) :=
                            (Except.ok.injEq _ _ ▸ heqacc.symm)
                          subst hacc
                          exact updateBalance_map_id _ _ _
                    · rw [hskip] at heqacc
                      simp only [Bool.not_true, Bool.false_eq_true, if_false] at heqacc
                      have hacc : accounts = db.accounts :=
                        (Except.ok.injEq _ _ ▸ heqacc.symm)
                      subst hacc
                      rfl
                  refine ⟨fun a ha => (haccounts a ha).1, ?_, hinv.invoicesPos, ?_⟩
                  · refine quotes_pos_map ?_ hinv.quotesPos
                    intro q
                    split
                    · rfl
                    · split <;> rfl
                  · show (accounts.map (fun a => a.id)).Nodup
                    rw [hids]
                    exact hinv.idsNodup
  | createDelivery freshDeliveryId taskId contractor filename contentBase64 notes r db' hok =>
      simp only [ALBM.createDelivery] at hok
      split at hok
      · exact Except.noConfusion hok
      · split at hok
        · exact Except.noConfusion hok
        · split at hok
          · exact Except.noConfusion hok
          · rename_i quote hfq
            have hdb : db' = { db with
                deliveries := db.deliveries ++
                  [⟨freshDeliveryId, taskId, quote.id, contractor, filename,
                    contentBase64, notes⟩]
                tasks := db.tasks.map (fun t =>
                  if t.id == taskId then { t with status := "delivered" } else t) } := by
              cases hok; rfl
            subst hdb
            exact ⟨hinv.balancesNonneg, hinv.quotesPos, hinv.invoicesPos, hinv.idsNodup⟩
  | confirmDelivery taskId caller r db' hok =>
      simp only [ALBM.confirmDelivery] at hok
      split at hok
      · exact Except.noConfusion hok
      · rename_i task hft
        split at hok
        · exact Except.noConfusion hok
        · split at hok
          · exact Except.noConfusion hok
          · split at hok
            · exact Except.noConfusion hok
            · rename_i quote hfq
              have hdb : db' = { db with
                  accounts := updateBalance db.accounts quote.contractorAccountId
                    (fun b => b + quote.priceSats)
                  usageLog := db.usageLog ++
                    [⟨quote.contractorAccountId, "hire:escrow_release:" ++ taskId,
                      quote.priceSats⟩]
                  tasks := db.tasks.map (fun t =>
                    if t.id == taskId then { t with status := "completed" } else t) } := by
                cases hok; rfl
              subst hdb
              have hqpos : 0 < quote.priceSats :=
                hinv.quotesPos quote (List.mem_of_find?_eq_some hfq)
              refine ⟨?_, hinv.quotesPos, hinv.invoicesPos, ?_⟩
              · show ∀ a ∈ updateBalance db.accounts quote.contractorAccountId
                  (fun b => b + quote.priceSats), 0 ≤ a.balanceSats
                exact updateBalance_nonneg_mono hinv.balancesNonneg
                  (fun b hb => by omega)
              · show ((updateBalance db.accounts quote.contractorAccountId
                  (fun b => b + quote.priceSats)).map (fun a => a.id)).Nodup
                rw [updateBalance_map_id]
                exact hinv.idsNodup
  | sendQuoteMessage taskId quoteId sender body r db' hok =>
      simp only [ALBM.sendQuoteMessage] at hok
      split at hok
      · exact Except.noConfusion hok
      · split at hok
        · exact Except.noConfusion hok
        · split at hok
          · exact Except.noConfusion hok
          · split at hok
            · exact Except.noConfusion hok
            · have hdb : db' = { db with messages := db.messages ++
                  [⟨taskId, quoteId, sender, body⟩] } := by
                cases hok; rfl
              subst hdb
              exact ⟨hinv.balancesNonneg, hinv.quotesPos, hinv.invoicesPos,
                hinv.idsNodup⟩

/-- C3: `balance_sats ≥ 0` holds in every reachable state — every store
operation preserves non-negativity of all balances — and each debit path
(`debit_token_balance`, `debit_account`, and the buyer debit inside
`accept_quote`) rejects with a typed insufficient-balance error carrying the
current balance and the required amount whenever `balance < amount`; the
error result carries no new database state, so the balance is unchanged. -/
theorem claim_C3_balance_invariant :
    (∀ db db', DBInv db → Step db db' → ∀ a ∈ db'.accounts, 0 ≤ a.balanceSats) ∧
    (∀ (db : DB) (token : String) (amt : Int) (endpoint : String) (row : AccountRow),
       findAccountByTokenHash db (hashToken token) = some row →
       row.balanceSats < amt →
       debitTokenBalance db token amt endpoint =
         .error (.insufficientBalance row.balanceSats amt)) ∧
    (∀ (db : DB) (accountId : String) (amt : Int) (endpoint : String) (row : AccountRow),
       findAccountById db accountId = some row →
       row.balanceSats < amt →
       debitAccount db accountId amt endpoint =
         .error (.insufficientBalance row.balanceSats amt)) ∧
    (∀ (db : DB) (taskId quoteId caller : String) (task : TaskRow) (quote : QuoteRow)
       (buyer : AccountRow),
       findTask db taskId = some task → task.status = "open" →
       task.buyerAccountId = caller →
       db.quotes.find? (fun q => q.id == quoteId && q.taskId == taskId) = some quote →
       quote.status = "pending" →
       findAccountById db caller = some buyer →
       buyer.balanceSats < quote.priceSats →
       acceptQuote db taskId quoteId caller false =
         .error (.insufficientBalance buyer.balanceSats quote.priceSats)) := by
  refine ⟨fun db db' hinv hstep => (dbInv_step hinv hstep).balancesNonneg, ?_, ?_, ?_⟩
  · intro db token amt endpoint row hfind hlt
    simp only [debitTokenBalance, hfind]
    rw [if_pos hlt]
  · intro db accountId amt endpoint row hfind hlt
    simp only [ALBM.debitAccount, hfind]
    rw [if_pos hlt]
  · intro db taskId quoteId caller task quote buyer hft hstatus hbuyer hfq hqstatus hfb hlt
    simp only [ALBM.acceptQuote, hft, hfq, hfb]
    rw [if_neg (by rw [hstatus]; simp), if_neg (by rw [hbuyer]; simp),
      if_neg (by rw [hqstatus]; simp)]
    simp only [Bool.not_false, if_true]
    rw [if_pos hlt]

/-- C3 witness: a credit step preserves non-negative balances on a concrete
database, and each debit path rejects a 5-sat debit of a 3-sat account with
the typed insufficient-balance error. -/
theorem claim_C3_witness :
    (∀ a ∈ (creditAccount ⟨[⟨"A", "th", 3⟩], [], [], [], [], [], []⟩ "A" 5).accounts,
       0 ≤ a.balanceSats) ∧
    debitTokenBalance ⟨[⟨"A", hashToken "tk", 3⟩], [], [], [], [], [], []⟩ "tk" 5 "e" =
      .error (.insufficientBalance 3 5) ∧
    debitAccount ⟨[⟨"A", "th", 3⟩], [], [], [], [], [], []⟩ "A" 5 "e" =
      .error (.insufficientBalance 3 5) ∧
    acceptQuote ⟨[⟨"A", "th", 3⟩], [], [], [⟨"T", "A", "t", "d", 9, "open"⟩],
        [⟨"Q", "T", "C", 5, "", "pending"⟩], [], []⟩ "T" "Q" "A" false =
      .error (.insufficientBalance 3 5) := by
  refine ⟨?_, ?_, ?_, ?_⟩
  · exact claim_C3_balance_invariant.1 _ _
      ⟨by decide, by decide, by decide, by decide⟩
      (Step.creditAccount ⟨[⟨"A", "th", 3⟩], [], [], [], [], [], []⟩ "A" 5 (by decide))
  · exact claim_C3_balance_invariant.2.1 _ "tk" 5 "e" ⟨"A", hashToken "tk", 3⟩
      (by simp [findAccountByTokenHash, List.find?]) (by decide)
  · exact claim_C3_balance_invariant.2.2.1 _ "A" 5 "e" ⟨"A", "th", 3⟩
      (by decide) (by decide)
  · exact claim_C3_balance_invariant.2.2.2 _ "T" "Q" "A"
      ⟨"T", "A", "t", "d", 9, "open"⟩ ⟨"Q", "T", "C", 5, "", "pending"⟩ ⟨"A", "th", 3⟩
      (by decide) rfl rfl (by decide) rfl (by decide) (by decide)

/-! ## Macaroon caveat-extraction lemmas (for C8) -/

theorem except_ok_bind {α β : Type} (a : α) (f : α → Except String β) :
    (Except.ok a >>= f : Except String β) = f a := rfl

theorem foldlM_cons_except {α σ : Type} (f : σ → α → Except String σ) (s : σ) (x : α)
    (xs : List α) : (x :: xs).foldlM f s = f s x >>= fun s' => xs.foldlM f s' := by
  simp [List.foldlM_cons]

theorem extractStep_payment_hash (st2 : Option Int) (st3 : Option String) (ph : String)
    (hph : ∀ c ∈ ph.data, isLowerHexChar c = true) :
    extractCaveatStep (none, st2, st3) ("payment_hash=" ++ ph) =
      .ok (some ph, st2, st3) := by
  unfold extractCaveatStep
  have hdata : ("payment_hash=" ++ ph).data = "payment_hash".data ++ '=' :: ph.data := by
    show "payment_hash=".data ++ ph.data = _
    rw [show "payment_hash=".data = "payment_hash".data ++ ['='] by decide]
    rw [List.append_assoc]
    rfl
  rw [hdata, partitionEq_append ph.data (by decide)]
  have hkey : (⟨stripList "payment_hash".data⟩ : String) = "payment_hash" := by decide
  have hvalue : (⟨stripList ph.data⟩ : String) = ph := by
    show (⟨stripList ph.data⟩ : String) = ⟨ph.data⟩
    rw [stripList_eq_self (fun c hc => isPySpace_false_of_lowerHex (hph c hc))]
  simp only [hkey, hvalue]
  rw [canonicalHash_eq_self_of_lowerHex hph]
  rfl

theorem extractStep_amount (st1 : Option String) (st3 : Option String) (amt : Int)
    (hamt : 0 ≤ amt) :
    extractCaveatStep (st1, none, st3) ("amount_sats=" ++ intToStr amt) =
      .ok (st1, some amt, st3) := by
  unfold extractCaveatStep
  have hdigits : ∀ c ∈ (intToStr amt).data, isDigitChar c = true := by
    intro c hc
    unfold intToStr at hc
    rw [if_neg (by omega)] at hc
    exact natToChars_digits c hc
  have hdata : ("amount_sats=" ++ intToStr amt).data =
      "amount_sats".data ++ '=' :: (intToStr amt).data := by
    show "amount_sats=".data ++ (intToStr amt).data = _
    rw [show "amount_sats=".data = "amount_sats".data ++ ['='] by decide]
    rw [List.append_assoc]
    rfl
  rw [hdata, partitionEq_append (intToStr amt).data (by decide)]
  have hkey : (⟨stripList "amount_sats".data⟩ : String) = "amount_sats" := by decide
  have hvalue : (⟨stripList (intToStr amt).data⟩ : String) = intToStr amt := by
    show (⟨stripList (intToStr amt).data⟩ : String) = ⟨(intToStr amt).data⟩
    rw [stripList_eq_self (fun c hc => isPySpace_false_of_digit (hdigits c hc))]
  simp only [hkey, hvalue, Bool.not_true, Bool.false_eq_true, if_false, if_true,
    if_neg (show ("amount_sats" : String) ≠ "payment_hash" by decide)]
  rw [parsePyInt_intToStr hamt]

theorem extractStep_account (st1 : Option String) (st2 : Option Int) (st3 : Option String)
    (acc : String) (hacc : ∀ c ∈ acc.data, isUuidChar c = true) :
    extractCaveatStep (st1, st2, st3) ("account_id=" ++ acc) =
      .ok (st1, st2, some acc) := by
  unfold extractCaveatStep
  have hdata : ("account_id=" ++ acc).data = "account_id".data ++ '=' :: acc.data := by
    show "account_id=".data ++ acc.data = _
    rw [show "account_id=".data = "account_id".data ++ ['='] by decide]
    rw [List.append_assoc]
    rfl
  rw [hdata, partitionEq_append acc.data (by decide)]
  have hkey : (⟨stripList "account_id".data⟩ : String) = "account_id" := by decide
  have hvalue : (⟨stripList acc.data⟩ : String) = acc := by
    show (⟨stripList acc.data⟩ : String) = ⟨acc.data⟩
    rw [stripList_eq_self (fun c hc => isPySpace_false_of_uuid (hacc c hc))]
  simp only [hkey, hvalue, Bool.not_true, Bool.false_eq_true, if_false, if_true,
    if_neg (show ("account_id" : String) ≠ "payment_hash" by decide),
    if_neg (show ("account_id" : String) ≠ "amount_sats" by decide)]

/-- Mint-then-verify roundtrip for L402 macaroons: for a canonical (nonempty
lowercase-hex) payment hash, a non-negative amount and an optional nonempty
uuid account id, `verifyL402Macaroon` recovers exactly the minted triple. -/
theorem l402_roundtrip (ph : String) (amt : Int) (acc : Option String)
    (hne : ph.data ≠ []) (hph : ∀ c ∈ ph.data, isLowerHexChar c = true)
    (hamt : 0 ≤ amt)
    (hacc : ∀ a, acc = some a → a.data ≠ [] ∧ ∀ c ∈ a.data, isUuidChar c = true) :
    verifyL402Macaroon (createL402Macaroon ph amt acc) = .ok (ph, amt, acc) := by
  have hnes : ph ≠ "" := string_ne_empty_of_data_ne hne
  have hamt' : ¬ amt < 0 := by omega
  have hm_id : (createL402Macaroon ph amt acc).identifier = ph := rfl
  have hm_sig : (createL402Macaroon ph amt acc).signature =
      macaroonChainSig L402_ROOT_KEY ph (createL402Macaroon ph amt acc).caveats := rfl
  unfold verifyL402Macaroon
  rw [hm_id, hm_sig, beq_self_eq_true, if_pos rfl]
  unfold extractL402Caveats
  cases acc with
  | none =>
      have hm_cav : (createL402Macaroon ph amt none).caveats =
          ["payment_hash=" ++ ph, "amount_sats=" ++ intToStr amt] := rfl
      rw [hm_cav]
      rw [foldlM_cons_except, extractStep_payment_hash none none ph hph, except_ok_bind]
      rw [foldlM_cons_except, extractStep_amount (some ph) none amt hamt, except_ok_bind]
      show (if ph = "" then Except.error "Missing payment_hash caveat"
        else if amt < 0 then Except.error "Missing or invalid amount_sats caveat"
        else Except.ok (ph, amt, (none : Option String))) = Except.ok (ph, amt, none)
      rw [if_neg hnes, if_neg hamt']
  | some a =>
      have hane : a ≠ "" := string_ne_empty_of_data_ne (hacc a rfl).1
      have huuid : ∀ c ∈ a.data, isUuidChar c = true := (hacc a rfl).2
      have hm_cav : (createL402Macaroon ph amt (some a)).caveats =
          ["payment_hash=" ++ ph, "amount_sats=" ++ intToStr amt, "account_id=" ++ a] := by
        rw [show (createL402Macaroon ph amt (some a)).caveats =
            ("payment_hash=" ++ ph) :: ("amount_sats=" ++ intToStr amt) ::
              (if a ≠ "" then ["account_id=" ++ a] else []) from rfl]
        rw [if_pos hane]
      rw [hm_cav]
      rw [foldlM_cons_except, extractStep_payment_hash none none ph hph, except_ok_bind]
      rw [foldlM_cons_except, extractStep_amount (some ph) none amt hamt, except_ok_bind]
      rw [foldlM_cons_except, extractStep_account (some ph) (some amt) none a huuid,
        except_ok_bind]
      show (if ph = "" then Except.error "Missing payment_hash caveat"
        else if amt < 0 then Except.error "Missing or invalid amount_sats caveat"
        else Except.ok (ph, amt, some a)) = Except.ok (ph, amt, some a)
      rw [if_neg hnes, if_neg hamt']

/-- **C8** (confirmed): `macaroon_verify(macaroon_mint(ph, amt, acc)) == (ph, amt, acc)`.
For every payment hash `ph` (a nonempty lowercase-hex string), every amount
`amt ≥ 0` and every optional account id `acc` (a nonempty uuid string when
present), verifying the macaroon minted by `_create_l402_macaroon` under the
same root key succeeds and returns exactly `(ph, amt, acc)`. -/
theorem claim_C8_macaroon_roundtrip (ph : String) (amt : Int) (acc : Option String)
    (hne : ph.data ≠ []) (hph : ∀ c ∈ ph.data, isLowerHexChar c = true)
    (hamt : 0 ≤ amt)
    (hacc : ∀ a, acc = some a → a.data ≠ [] ∧ ∀ c ∈ a.data, isUuidChar c = true) :
    verifyL402Macaroon (createL402Macaroon ph amt acc) = .ok (ph, amt, acc) :=
  l402_roundtrip ph amt acc hne hph hamt hacc

/-- C8 witness: the roundtrip at the concrete triple
`("ab12cd", 21, some "aa-bb-01")`. -/
theorem claim_C8_witness :
    verifyL402Macaroon (createL402Macaroon "ab12cd" 21 (some "aa-bb-01")) =
      .ok ("ab12cd", 21, some "aa-bb-01") :=
  claim_C8_macaroon_roundtrip "ab12cd" 21 (some "aa-bb-01") (by decide) (by decide)
    (by decide) (by intro a ha; cases ha; exact ⟨by decide, by decide⟩)

/-! ## Gated-proxy underpayment (C4) -/

/-- **C4** (confirmed): in the gated proxy, when an L402 macaroon verifies and
the preimage hashes to its `payment_hash` caveat but the macaroon's
`amount_sats` is strictly below the computed price, the response is
`402 insufficient_payment`, the used-hash set is only opportunistically
cleaned (the hash is not inserted), and a later redemption of the same hash
with a sufficient amount still forwards. -/
theorem claim_C4_underpayment_keeps_hash (db : DB) (used : UsedHashSet) (now : Int)
    (mac : Macaroon) (preimage d0 ph : String) (paid : Int) (accOpt : Option String)
    (amountSats : Int) (endpoint phh pinv : String)
    (hver : verifyL402Macaroon mac = .ok (ph, paid, accOpt))
    (hhash : hashFromPreimage preimage = .ok d0)
    (hcanon : canonicalHash d0 = ph)
    (hlow : plower ph = ph) (hne : ph ≠ "")
    (hmem : (used.maybeCleanup now).member ph = false)
    (hlt : paid < amountSats) :
    gatedProxyRequest db used now none (some (mac, preimage)) amountSats endpoint
        phh pinv = (.err 402 "insufficient_payment", db, used.maybeCleanup now) ∧
    ∀ (db2 : DB) (now2 : Int) (mac2 : Macaroon) (pre2 d2 : String) (paid2 : Int)
      (acc2 : Option String) (amt2 : Int) (ep2 ph2 inv2 : String),
      verifyL402Macaroon mac2 = .ok (ph, paid2, acc2) →
      hashFromPreimage pre2 = .ok d2 →
      canonicalHash d2 = ph →
      ¬ paid2 < amt2 →
      (gatedProxyRequest db2 (used.maybeCleanup now) now2 none (some (mac2, pre2)) amt2
          ep2 ph2 inv2).1 = .forwarded := by
  constructor
  · simp only [gatedProxyRequest, hver, hhash, hcanon]
    rw [if_neg (show ¬ ph ≠ ph from fun h => h rfl)]
    rw [isUsed_spec hlow hne]
    simp only [hmem]
    rw [if_neg (by simp), if_pos hlt]
  · intro db2 now2 mac2 pre2 d2 paid2 acc2 amt2 ep2 ph2 inv2 hver2 hhash2 hcanon2 hge
    have hmem2 : ((used.maybeCleanup now).maybeCleanup now2).member ph = false :=
      member_maybeCleanup_false hmem
    simp only [gatedProxyRequest, hver2, hhash2, hcanon2]
    rw [if_neg (show ¬ ph ≠ ph from fun h => h rfl)]
    rw [isUsed_spec hlow hne]
    simp only [hmem2]
    rw [if_neg (by simp), if_neg hge]
    rw [markUsed_spec_absent hlow hne (member_maybeCleanup_false hmem2)]
    simp only [Bool.not_true]
    rw [if_neg (by simp)]

/-- A fixed 32-byte preimage, its hex encoding, and its payment hash, used by
concrete witnesses.  The hash term is never evaluated: witnesses rely only on
its shape (nonempty lowercase hex). -/
def rawPre0 : List Nat := List.range 32

def preimage0 : String := bytesToHex rawPre0

def phHash0 : String := bytesToHex (sha256Bytes rawPre0)

theorem phHash0_lowerHex : ∀ c ∈ phHash0.data, isLowerHexChar c = true :=
  bytesToHex_lowerHex _

theorem phHash0_data_ne : phHash0.data ≠ [] := by
  intro hd
  unfold phHash0 at hd
  have hl := bytesToHex_data_length (sha256Bytes rawPre0)
  rw [hd, sha256Bytes_length] at hl
  simp at hl

theorem phHash0_ne : phHash0 ≠ "" := string_ne_empty_of_data_ne phHash0_data_ne

theorem phHash0_lower : plower phHash0 = phHash0 :=
  plower_eq_self_of_lowerHex phHash0_lowerHex

theorem phHash0_canon : canonicalHash phHash0 = phHash0 :=
  canonicalHash_eq_self_of_lowerHex phHash0_lowerHex

theorem hashFromPreimage_preimage0 : hashFromPreimage preimage0 = .ok phHash0 :=
  hashFromPreimage_bytesToHex (by decide) (by decide)

/-- C4 witness: a macaroon paying 3 sats against a 5-sat price on an empty
used-hash set answers `402 insufficient_payment` and leaves the set merely
cleaned. -/
theorem claim_C4_witness :
    gatedProxyRequest ⟨[], [], [], [], [], [], []⟩ (UsedHashSet.empty 3600 300) 1000 none
        (some (createL402Macaroon phHash0 3 none, preimage0)) 5 "ep" "x" "inv" =
      (.err 402 "insufficient_payment", ⟨[], [], [], [], [], [], []⟩,
        (UsedHashSet.empty 3600 300).maybeCleanup 1000) :=
  (claim_C4_underpayment_keeps_hash ⟨[], [], [], [], [], [], []⟩
    (UsedHashSet.empty 3600 300) 1000 (createL402Macaroon phHash0 3 none)
    preimage0 phHash0 phHash0 3 none 5 "ep" "x" "inv"
    (l402_roundtrip phHash0 3 none phHash0_data_ne phHash0_lowerHex (by decide)
      (fun a ha => by cases ha))
    hashFromPreimage_preimage0 phHash0_canon phHash0_lower phHash0_ne
    (member_maybeCleanup_false rfl) (by decide)).1

/-! ## Accept-quote over L402 (C1) -/

/-- `_hire_resolve_auth` on the pure-L402 path (no `X-Token`), with a valid
macaroon, matching preimage and an unused canonical hash: the resolved
identity is the macaroon's `account_id` caveat and the used-hash set is only
opportunistically cleaned. -/
theorem hireResolveAuth_l402 (db : DB) (used : UsedHashSet) (now : Int)
    (mac : Macaroon) (preimage d0 ph : String) (paid : Int) (acc : Option String)
    (hver : verifyL402Macaroon mac = .ok (ph, paid, acc))
    (hhash : hashFromPreimage preimage = .ok d0)
    (hcanon : canonicalHash d0 = ph)
    (hlow : plower ph = ph) (hne : ph ≠ "")
    (hmem : (used.maybeCleanup now).member ph = false) :
    hireResolveAuth db used now none (some (mac, preimage)) =
      (.ok ⟨acc, "l402", paid, ph⟩, used.maybeCleanup now) := by
  simp only [hireResolveAuth, hver, hhash, hcanon]
  rw [if_neg (show ¬ ph ≠ ph from fun h => h rfl)]
  rw [isUsed_spec hlow hne]
  simp only [hmem]
  rw [if_neg (by simp)]

/-- `_hire_consume_l402` with no minimum on a fresh canonical hash: consumes
the hash by inserting it into the used set. -/
theorem hireConsumeL402_l402_fresh (acc : Option String) (paid : Int) (ph : String)
    (used1 : UsedHashSet) (now : Int)
    (hlow : plower ph = ph) (hne : ph ≠ "")
    (hmem : (used1.maybeCleanup now).member ph = false) :
    hireConsumeL402 ⟨acc, "l402", paid, ph⟩ used1 now 0 =
      (none, { used1.maybeCleanup now with
        usedHashes := (used1.maybeCleanup now).usedHashes ++ [(ph, now)] }) := by
  simp only [hireConsumeL402]
  rw [if_neg (show ¬ ("l402" : String) ≠ "l402" from fun h => h rfl)]
  rw [if_neg (show ¬ ((0:Int) < 0 ∧ paid < 0) from fun h => absurd h.1 (by omega))]
  rw [markUsed_spec_absent hlow hne hmem]
  simp only [Bool.not_true]
  rw [if_neg (by simp)]

/-- Full run of the accept-quote handler on the L402 path with a sufficient
ledger balance: the accept succeeds, the buyer is debited by the quote's
price, an escrow-lock usage row is written, quote/task statuses move, and
the payment hash is consumed. -/
theorem hireAccept_l402_ok (db : DB) (used : UsedHashSet) (now : Int)
    (taskId quoteId : String) (mac : Macaroon) (preimage d0 ph caller : String)
    (paid : Int) (phx pinv : String) (task : TaskRow) (quote : QuoteRow)
    (buyer : AccountRow)
    (hver : verifyL402Macaroon mac = .ok (ph, paid, some caller))
    (hhash : hashFromPreimage preimage = .ok d0)
    (hcanon : canonicalHash d0 = ph)
    (hlow : plower ph = ph) (hne : ph ≠ "")
    (hmem : (used.maybeCleanup now).member ph = false)
    (hft : findTask db taskId = some task) (hst : task.status = "open")
    (hbuy : task.buyerAccountId = caller)
    (hfq : db.quotes.find? (fun q => q.id == quoteId && q.taskId == taskId) = some quote)
    (hqst : quote.status = "pending")
    (hfb : findAccountById db caller = some buyer)
    (hbal : ¬ buyer.balanceSats < quote.priceSats) :
    hireAcceptQuoteHandler db used now taskId quoteId none (some (mac, preimage))
        phx pinv =
      (.ok ⟨taskId, quoteId, "in_escrow", quote.priceSats⟩,
       { db with
         accounts := updateBalance db.accounts caller (fun b => b - quote.priceSats)
         usageLog := db.usageLog ++
           [⟨caller, "hire:escrow_lock:" ++ taskId, quote.priceSats⟩]
         quotes := db.quotes.map (fun q =>
           if q.id == quoteId then { q with status := "accepted" }
           else if q.taskId == taskId && q.id != quoteId && q.status == "pending" then
             { q with status := "rejected" }
           else q)
         tasks := db.tasks.map (fun t =>
           if t.id == taskId then { t with status := "in_escrow" } else t) },
       { (used.maybeCleanup now).maybeCleanup now with
         usedHashes := ((used.maybeCleanup now).maybeCleanup now).usedHashes ++
           [(ph, now)] }) := by
  have hra := hireResolveAuth_l402 db used now mac preimage d0 ph paid (some caller)
    hver hhash hcanon hlow hne hmem
  have hcl := hireConsumeL402_l402_fresh (some caller) paid ph (used.maybeCleanup now)
    now hlow hne (member_maybeCleanup_false hmem)
  have hacc : acceptQuote db taskId quoteId caller false =
      .ok (⟨taskId, quoteId, "in_escrow", quote.priceSats⟩,
        { db with
          accounts := updateBalance db.accounts caller (fun b => b - quote.priceSats)
          usageLog := db.usageLog ++
            [⟨caller, "hire:escrow_lock:" ++ taskId, quote.priceSats⟩]
          quotes := db.quotes.map (fun q =>
            if q.id == quoteId then { q with status := "accepted" }
            else if q.taskId == taskId && q.id != quoteId && q.status == "pending" then
              { q with status := "rejected" }
            else q)
          tasks := db.tasks.map (fun t =>
            if t.id == taskId then { t with status := "in_escrow" } else t) }) := by
    simp only [acceptQuote, hft, hfq, hfb]
    rw [if_neg (by rw [hst]; simp), if_neg (by rw [hbuy]; simp),
      if_neg (by rw [hqst]; simp)]
    simp only [Bool.not_false, if_true]
    rw [if_neg hbal]
  simp only [hireAcceptQuoteHandler, hra, hcl, hacc]

/-- **C1** (corrected): the accept-quote handler never passes `skip_debit`;
an accept authorized by a valid, unused L402 macaroon bound to the caller
still runs `accept_quote` with `skip_debit = False`, so on success the
buyer's ledger balance IS debited by the quote's price: the accounts table
becomes `updateBalance … (fun b => b - price)` and an escrow-lock usage row
is written, alongside the quote/task status changes. -/
theorem claim_C1_l402_accept_debits_ledger (db : DB) (used : UsedHashSet) (now : Int)
    (taskId quoteId : String) (mac : Macaroon) (preimage d0 ph caller : String)
    (paid : Int) (phx pinv : String) (task : TaskRow) (quote : QuoteRow)
    (buyer : AccountRow)
    (hver : verifyL402Macaroon mac = .ok (ph, paid, some caller))
    (hhash : hashFromPreimage preimage = .ok d0)
    (hcanon : canonicalHash d0 = ph)
    (hlow : plower ph = ph) (hne : ph ≠ "")
    (hmem : (used.maybeCleanup now).member ph = false)
    (hft : findTask db taskId = some task) (hst : task.status = "open")
    (hbuy : task.buyerAccountId = caller)
    (hfq : db.quotes.find? (fun q => q.id == quoteId && q.taskId == taskId) = some quote)
    (hqst : quote.status = "pending")
    (hfb : findAccountById db caller = some buyer)
    (hbal : ¬ buyer.balanceSats < quote.priceSats) :
    hireAcceptQuoteHandler db used now taskId quoteId none (some (mac, preimage))
        phx pinv =
      (.ok ⟨taskId, quoteId, "in_escrow", quote.priceSats⟩,
       { db with
         accounts := updateBalance db.accounts caller (fun b => b - quote.priceSats)
         usageLog := db.usageLog ++
           [⟨caller, "hire:escrow_lock:" ++ taskId, quote.priceSats⟩]
         quotes := db.quotes.map (fun q =>
           if q.id == quoteId then { q with status := "accepted" }
           else if q.taskId == taskId && q.id != quoteId && q.status == "pending" then
             { q with status := "rejected" }
           else q)
         tasks := db.tasks.map (fun t =>
           if t.id == taskId then { t with status := "in_escrow" } else t) },
       { (used.maybeCleanup now).maybeCleanup now with
         usedHashes := ((used.maybeCleanup now).maybeCleanup now).usedHashes ++
           [(ph, now)] }) :=
  hireAccept_l402_ok db used now taskId quoteId mac preimage d0 ph caller paid phx
    pinv task quote buyer hver hhash hcanon hlow hne hmem hft hst hbuy hfq hqst hfb hbal

/-- A concrete marketplace state: buyer `b` holds 100 sats, contractor `c`
has an 80-sat pending quote `Q` on `b`'s open task `T`. -/
def dbC1 : DB :=
  ⟨[⟨"b", "tb", 100⟩, ⟨"c", "tc", 0⟩], [], [],
   [⟨"T", "b", "t", "d", 100, "open"⟩], [⟨"Q", "T", "c", 80, "", "pending"⟩], [], []⟩

/-- C1 counterexample to the claim as stated: on a retry with a valid unused
L402 macaroon covering the 80-sat quote, the accept succeeds but the buyer's
ledger balance is NOT unchanged — it drops from 100 to 20 sats. -/
theorem claim_C1_counterexample :
    (hireAcceptQuoteHandler dbC1 (UsedHashSet.empty 3600 300) 1000 "T" "Q" none
        (some (createL402Macaroon phHash0 80 (some "b"), preimage0)) "phx" "inv").1 =
      .ok ⟨"T", "Q", "in_escrow", 80⟩ ∧
    (hireAcceptQuoteHandler dbC1 (UsedHashSet.empty 3600 300) 1000 "T" "Q" none
        (some (createL402Macaroon phHash0 80 (some "b"), preimage0)) "phx"
        "inv").2.1.accounts = [⟨"b", "tb", 20⟩, ⟨"c", "tc", 0⟩] ∧
    dbC1.accounts = [⟨"b", "tb", 100⟩, ⟨"c", "tc", 0⟩] := by
  have heq := hireAccept_l402_ok dbC1 (UsedHashSet.empty 3600 300) 1000 "T" "Q"
    (createL402Macaroon phHash0 80 (some "b")) preimage0 phHash0 phHash0 "b" 80
    "phx" "inv" ⟨"T", "b", "t", "d", 100, "open"⟩ ⟨"Q", "T", "c", 80, "", "pending"⟩
    ⟨"b", "tb", 100⟩
    (l402_roundtrip phHash0 80 (some "b") phHash0_data_ne phHash0_lowerHex (by decide)
      (fun a ha => by cases ha; exact ⟨by decide, by decide⟩))
    hashFromPreimage_preimage0 phHash0_canon phHash0_lower phHash0_ne
    (member_maybeCleanup_false rfl) (by decide) rfl rfl (by decide) rfl (by decide)
    (by decide)
  refine ⟨?_, ?_, rfl⟩
  · rw [heq]
  · rw [heq]
    rfl

/-- C1 witness: the amended theorem at the concrete state `dbC1`: the accept
succeeds and debits the buyer from 100 to 20 sats. -/
theorem claim_C1_witness :
    hireAcceptQuoteHandler dbC1 (UsedHashSet.empty 3600 300) 1000 "T" "Q" none
        (some (createL402Macaroon phHash0 80 (some "b"), preimage0)) "phx" "inv" =
      (.ok ⟨"T", "Q", "in_escrow", 80⟩,
       { dbC1 with
         accounts := updateBalance dbC1.accounts "b" (fun b => b - 80)
         usageLog := [⟨"b", "hire:escrow_lock:T", 80⟩]
         quotes := [⟨"Q", "T", "c", 80, "", "accepted"⟩]
         tasks := [⟨"T", "b", "t", "d", 100, "in_escrow"⟩] },
       { (UsedHashSet.empty 3600 300).maybeCleanup 1000 with
         usedHashes := [(phHash0, 1000)] }) :=
  claim_C1_l402_accept_debits_ledger dbC1 (UsedHashSet.empty 3600 300) 1000 "T" "Q"
    (createL402Macaroon phHash0 80 (some "b")) preimage0 phHash0 phHash0 "b" 80
    "phx" "inv" ⟨"T", "b", "t", "d", 100, "open"⟩ ⟨"Q", "T", "c", 80, "", "pending"⟩
    ⟨"b", "tb", 100⟩
    (l402_roundtrip phHash0 80 (some "b") phHash0_data_ne phHash0_lowerHex (by decide)
      (fun a ha => by cases ha; exact ⟨by decide, by decide⟩))
    hashFromPreimage_preimage0 phHash0_canon phHash0_lower phHash0_ne
    (member_maybeCleanup_false rfl) (by decide) rfl rfl (by decide) rfl (by decide)
    (by decide)

/-! ## Claiming account-bound top-up invoices (C2) -/

theorem preimage0_data_ne : preimage0.data ≠ [] := by
  intro hd
  unfold preimage0 at hd
  have hl := bytesToHex_data_length rawPre0
  rw [hd] at hl
  simp [rawPre0] at hl

theorem preimage0_ne : preimage0 ≠ "" := string_ne_empty_of_data_ne preimage0_data_ne

theorem pstrip_preimage0 : pstrip preimage0 = preimage0 :=
  pstrip_eq_self (fun c hc => isPySpace_false_of_lowerHex (bytesToHex_lowerHex rawPre0 c hc))

/-- The claim handler on the fixed preimage with no token reduces to the
store call at the canonical payment hash. -/
theorem claimTopupHandler_preimage0_noToken (db : DB) (fa ft : String) :
    claimTopupHandler db preimage0 none fa ft =
      match claimTopupInvoice db phHash0 none fa ft with
      | .error .invalidPayment => .error (400, "invalid_payment")
      | .error .invoiceAlreadyClaimed => .error (400, "payment_already_used")
      | .error .invalidToken => .error (401, "invalid_token")
      | .error .missingToken => .error (400, "missing_token")
      | .error _ => .error (503, "topup_unavailable")
      | .ok r => .ok r := by
  unfold claimTopupHandler
  rw [if_neg (show ¬ pstrip preimage0 = "" from by rw [pstrip_preimage0]; exact preimage0_ne)]
  show claimTopupHandler.claimAfterValidate db preimage0 none fa ft = _
  unfold claimTopupHandler.claimAfterValidate
  rw [hashFromPreimage_preimage0]
  show (match claimTopupInvoice db (canonicalHash phHash0) none fa ft with
    | .error .invalidPayment => Except.error (400, "invalid_payment")
    | .error .invoiceAlreadyClaimed => Except.error (400, "payment_already_used")
    | .error .invalidToken => Except.error (401, "invalid_token")
    | .error .missingToken => Except.error (400, "missing_token")
    | .error _ => Except.error (503, "topup_unavailable")
    | .ok r => Except.ok r) = _
  rw [phHash0_canon]

/-- `claimCredit` when the selected account exists: credit the invoice's
amount, return the issued token with the new balance, mark the invoice paid
and bind it. -/
theorem claimCredit_ok (db : DB) (inv : InvoiceRow) (sel tok : String)
    (row : AccountRow) (hfb : findAccountById db sel = some row) :
    claimCredit db inv sel tok =
      .ok (⟨tok, row.balanceSats + inv.amountSats⟩,
        { db with
          accounts := updateBalance db.accounts sel (fun b => b + inv.amountSats)
          invoices := db.invoices.map (fun i =>
            if i.paymentHash == inv.paymentHash then
              { i with status := "paid", accountId := some sel }
            else i) }) := by
  have hrid : (row.id == sel) = true :=
    (find?_mem_and_pred
      (show db.accounts.find? (fun a => a.id == sel) = some row from hfb)).2
  simp only [claimCredit]
  rw [find?_updateBalance]
  rw [show db.accounts.find? (fun a => a.id == sel) = some row from hfb]
  simp only [Option.map_some']
  rw [show balanceXform sel (fun b => b + inv.amountSats) row =
      { row with balanceSats := row.balanceSats + inv.amountSats } from by
    unfold balanceXform
    rw [if_pos hrid]]

/-- **C2** (corrected): a pending top-up invoice that is bound to an account
does NOT accept a token-less claim: with the correct preimage and no token
the store raises `missing_token` (mapped to a 400), and only a claim carrying
the bound account's own bearer token succeeds — that one credits the
invoice's `amount_sats` to the bound account and marks the invoice paid. -/
theorem claim_C2_bound_invoice_requires_token (db : DB) (ph fa ft : String)
    (inv : InvoiceRow) (bound : String)
    (hfi : findInvoice db ph = some inv)
    (hst : inv.status = "pending")
    (hbound : inv.accountId = some bound) :
    claimTopupInvoice db ph none fa ft = .error .missingToken ∧
    ∀ (tok : String) (row : AccountRow),
      pstrip tok = tok → tok ≠ "" →
      findAccountByTokenHash db (hashToken tok) = some row →
      row.id = bound →
      findAccountById db bound = some row →
      claimTopupInvoice db ph (some tok) fa ft =
        .ok (⟨tok, row.balanceSats + inv.amountSats⟩,
          { db with
            accounts := updateBalance db.accounts bound (fun b => b + inv.amountSats)
            invoices := db.invoices.map (fun i =>
              if i.paymentHash == inv.paymentHash then
                { i with status := "paid", accountId := some bound }
              else i) }) := by
  constructor
  · simp only [claimTopupInvoice, hfi]
    rw [if_neg (by rw [hst]; simp)]
    rw [if_neg (show ¬ ("" : String) ≠ "" from fun h => h rfl)]
    rw [hbound]
    rfl
  · intro tok row hps hne hft hrid hfb
    simp only [claimTopupInvoice, hfi]
    rw [if_neg (by rw [hst]; simp)]
    rw [hps, if_pos hne]
    simp only [hft, hbound]
    rw [if_neg (by rw [hrid]; simp)]
    rw [hrid]
    exact claimCredit_ok db inv bound tok row hfb

/-- A concrete state for C2: account `a` (token `tok`, 10 sats) and a pending
40-sat invoice at the fixed payment hash, bound to `a`. -/
def dbC2 : DB :=
  ⟨[⟨"a", hashToken "tok", 10⟩], [⟨phHash0, some "a", 40, "pending"⟩],
   [], [], [], [], []⟩

/-- C2 counterexample to the claim as stated: the invoice is pending and
bound to account `a`, yet the claim request with the correct preimage and no
token does not succeed — the handler answers `400 missing_token`. -/
theorem claim_C2_counterexample :
    invoiceStatusOf dbC2 phHash0 = some "pending" ∧
    (findInvoice dbC2 phHash0).map (fun i => i.accountId) = some (some "a") ∧
    claimTopupHandler dbC2 preimage0 none "f" "ft" = .error (400, "missing_token") := by
  have hfi : findInvoice dbC2 phHash0 = some ⟨phHash0, some "a", 40, "pending"⟩ := by
    simp [dbC2, findInvoice, List.find?]
  refine ⟨?_, ?_, ?_⟩
  · rw [invoiceStatusOf, hfi]
    rfl
  · rw [hfi]
    rfl
  · rw [claimTopupHandler_preimage0_noToken]
    have hcl : claimTopupInvoice dbC2 phHash0 none "f" "ft" = .error .missingToken := by
      simp only [claimTopupInvoice, hfi]
      rw [if_neg (show ¬ ("pending" : String) ≠ "pending" from fun h => h rfl)]
      rw [if_neg (show ¬ ("" : String) ≠ "" from fun h => h rfl)]
      rfl
    rw [hcl]

/-- C2 witness: on `dbC2`, the token-less claim fails with `missing_token`,
and the claim with the bound account's token credits 10 → 50 sats and marks
the invoice paid. -/
theorem claim_C2_witness :
    claimTopupInvoice dbC2 phHash0 none "f" "ft" = .error .missingToken ∧
    claimTopupInvoice dbC2 phHash0 (some "tok") "f" "ft" =
      .ok (⟨"tok", 50⟩,
        { dbC2 with
          accounts := updateBalance dbC2.accounts "a" (fun b => b + 40)
          invoices := dbC2.invoices.map (fun i =>
            if i.paymentHash == phHash0 then
              { i with status := "paid", accountId := some "a" }
            else i) }) := by
  have h := claim_C2_bound_invoice_requires_token dbC2 phHash0 "f" "ft"
    ⟨phHash0, some "a", 40, "pending"⟩ "a"
    (by simp [dbC2, findInvoice, List.find?]) rfl rfl
  refine ⟨h.1, ?_⟩
  exact h.2 "tok" ⟨"a", hashToken "tok", 10⟩ (by decide) (by decide)
    (by simp [dbC2, findAccountByTokenHash, List.find?]) rfl
    (by simp [dbC2, findAccountById, List.find?])

/-! ## Bearer-token insufficient balance (C5) -/

/-- **C5** (corrected): a gated-proxy request with a bearer token whose
account balance is below the price answers a bare `402 insufficient_balance`
error envelope — no account-bound L402 challenge (macaroon, invoice or
payment-hash headers) is issued on this path, and the database and used-hash
set are untouched. -/
theorem claim_C5_bearer_402_no_challenge (db : DB) (used : UsedHashSet) (now : Int)
    (tok : String) (amountSats : Int) (endpoint phh pinv : String) (row : AccountRow)
    (hfind : findAccountByTokenHash db (hashToken tok) = some row)
    (hlt : row.balanceSats < amountSats) :
    gatedProxyRequest db used now (some tok) none amountSats endpoint phh pinv =
      (.err 402 "insufficient_balance", db, used) ∧
    ∀ (mac : Macaroon) (invoice ph : String) (price : Int),
      (gatedProxyRequest db used now (some tok) none amountSats endpoint phh pinv).1 ≠
        .challenge mac invoice ph price := by
  have hdeb : debitTokenBalance db tok amountSats endpoint =
      .error (.insufficientBalance row.balanceSats amountSats) := by
    simp only [debitTokenBalance, hfind]
    rw [if_pos hlt]
  constructor
  · simp only [gatedProxyRequest, hdeb]
  · intro mac invoice ph price
    simp only [gatedProxyRequest, hdeb]
    exact fun h => GateResp.noConfusion h

/-- A concrete state for C5: one account `a` with bearer token `tok` holding
3 sats. -/
def dbC5 : DB := ⟨[⟨"a", hashToken "tok", 3⟩], [], [], [], [], [], []⟩

/-- C5 counterexample to the claim as stated: with balance 3 below price 5
the bearer-token response is the bare `402 insufficient_balance` envelope and
is not a challenge carrying a macaroon/invoice/payment-hash, for any such
payload. -/
theorem claim_C5_counterexample :
    (gatedProxyRequest dbC5 (UsedHashSet.empty 3600 300) 1000 (some "tok") none 5 "ep"
        "x" "inv").1 = .err 402 "insufficient_balance" ∧
    ∀ (mac : Macaroon) (invoice ph : String) (price : Int),
      (gatedProxyRequest dbC5 (UsedHashSet.empty 3600 300) 1000 (some "tok") none 5 "ep"
          "x" "inv").1 ≠ .challenge mac invoice ph price := by
  have hfind : findAccountByTokenHash dbC5 (hashToken "tok") =
      some ⟨"a", hashToken "tok", 3⟩ := by
    simp [dbC5, findAccountByTokenHash, List.find?]
  have hdeb : debitTokenBalance dbC5 "tok" 5 "ep" = .error (.insufficientBalance 3 5) := by
    simp only [debitTokenBalance, hfind]
    rw [if_pos (by decide)]
  constructor
  · simp only [gatedProxyRequest, hdeb]
  · intro mac invoice ph price
    simp only [gatedProxyRequest, hdeb]
    exact fun h => GateResp.noConfusion h

/-- C5 witness: the amended theorem at the concrete 3-sat account and 5-sat
price. -/
theorem claim_C5_witness :
    gatedProxyRequest dbC5 (UsedHashSet.empty 3600 300) 1000 (some "tok") none 5 "ep"
        "x" "inv" = (.err 402 "insufficient_balance", dbC5, UsedHashSet.empty 3600 300) :=
  (claim_C5_bearer_402_no_challenge dbC5 (UsedHashSet.empty 3600 300) 1000 "tok" 5 "ep"
    "x" "inv" ⟨"a", hashToken "tok", 3⟩
    (by simp [dbC5, findAccountByTokenHash, List.find?]) (by decide)).1

/-! ## Paid invoices and the create-topup upsert (C6) -/

/-- **C6** (corrected): once a top-up invoice is non-pending, every later
claim of its payment hash fails with `invoice_already_claimed`
(`payment_already_used` at the HTTP layer) — but `paid` is not permanent
across all operations: `create_topup_invoice`'s upsert on the same payment
hash resets the invoice's status to `pending`, after which it can be claimed
(and so transition to `paid`) again. -/
theorem claim_C6_paid_reset_by_upsert (db : DB) (ph : String) (inv : InvoiceRow)
    (tok : Option String) (fa ft : String) (amt : Int) (acc : Option String)
    (hfi : findInvoice db ph = some inv) :
    (inv.status ≠ "pending" →
      claimTopupInvoice db ph tok fa ft = .error .invoiceAlreadyClaimed) ∧
    invoiceStatusOf (createTopupInvoice db ph amt acc) ph = some "pending" := by
  have hpred : (inv.paymentHash == ph) = true :=
    (find?_mem_and_pred
      (show db.invoices.find? (fun i => i.paymentHash == ph) = some inv from hfi)).2
  have hmem : inv ∈ db.invoices :=
    (find?_mem_and_pred
      (show db.invoices.find? (fun i => i.paymentHash == ph) = some inv from hfi)).1
  constructor
  · intro hst
    simp only [claimTopupInvoice, hfi]
    rw [if_pos hst]
  · have hany : db.invoices.any (fun i => i.paymentHash == ph) = true :=
      List.any_eq_true.mpr ⟨inv, hmem, hpred⟩
    have hp : ∀ i : InvoiceRow,
        (((fun i => if i.paymentHash == ph then
            { i with accountId := acc, amountSats := amt, status := "pending" }
          else i) i).paymentHash == ph) = (i.paymentHash == ph) := by
      intro i
      show ((if i.paymentHash == ph then
          { i with accountId := acc, amountSats := amt, status := "pending" }
        else i).paymentHash == ph) = (i.paymentHash == ph)
      by_cases hc : (i.paymentHash == ph) = true
      · rw [if_pos hc]
      · rw [if_neg hc]
    simp only [createTopupInvoice, hany, if_true]
    rw [invoiceStatusOf, findInvoice]
    show ((db.invoices.map (fun i => if i.paymentHash == ph then
        { i with accountId := acc, amountSats := amt, status := "pending" }
      else i)).find? (fun i => i.paymentHash == ph)).map (fun i => i.status) =
        some "pending"
    rw [find?_map_pres hp]
    rw [show db.invoices.find? (fun i => i.paymentHash == ph) = some inv from hfi]
    simp only [Option.map_some']
    rw [if_pos hpred]

/-- A concrete state for C6: a single already-paid 40-sat invoice `h6` bound
to account `a`. -/
def dbC6 : DB := ⟨[], [⟨"h6", some "a", 40, "paid"⟩], [], [], [], [], []⟩

/-- C6 counterexample to the claim as stated: the invoice is `paid`, yet
re-creating a top-up invoice with the same payment hash flips it back to
`pending` — so `status = paid` is not a once-only absorbing transition. -/
theorem claim_C6_counterexample :
    invoiceStatusOf dbC6 "h6" = some "paid" ∧
    invoiceStatusOf (createTopupInvoice dbC6 "h6" 40 (some "a")) "h6" =
      some "pending" := by
  decide

/-- C6 witness: on `dbC6`, a later claim of `h6` fails with
`invoice_already_claimed`, and the upsert resets `h6` to `pending`. -/
theorem claim_C6_witness :
    claimTopupInvoice dbC6 "h6" none "f" "ft" = .error .invoiceAlreadyClaimed ∧
    invoiceStatusOf (createTopupInvoice dbC6 "h6" 40 (some "a")) "h6" =
      some "pending" := by
  have h := claim_C6_paid_reset_by_upsert dbC6 "h6" ⟨"h6", some "a", 40, "paid"⟩ none
    "f" "ft" 40 (some "a") (by decide)
  exact ⟨h.1 (by decide), h.2⟩

end ALBM
